import Mathlib

/-!
Shallow embedding of the transactions-engine repository (Rust) and proofs
about its accounting state machine.

The embedding follows `src/engine.rs` and `src/domain.rs`:
* `CustomerId` (u16 in the source) and `TransactionId` (u32) are opaque
  numeric keys; they are modelled as `Nat` since only equality is used.
* Monetary amounts are `fastnum::D128` fixed-precision decimals in the
  source; the spec requires exact decimal arithmetic with no rounding, so
  amounts are modelled as exact rationals `Rat`.
* The two `HashMap`s of `AccountingEngine` are modelled as association
  lists with first-binding lookup (`alookup`) and in-place first-binding
  replacement (`setKey`); `entry(client).or_default()` is `entryOrDefault`.
* The `.expect("Account must exist ...")` panics in `dispute`, `resolve`
  and `chargeback` are modelled by an `Option` result: `none` is a panic.
-/

namespace TransactionsEngine

abbrev CustomerId := Nat

abbrev TransactionId := Nat

/-- Mirrors `struct Account { available, held, locked }` in engine.rs. -/
structure Account where
  available : Rat
  held : Rat
  locked : Bool
deriving DecidableEq

/-- The `Default` impl for `Account`: zero balances, unlocked. -/
def Account.default : Account := ⟨0, 0, false⟩

/-- Mirrors `enum TransactionState` in engine.rs (the source spells
the withdrawal state `Withdrawed`). -/
inductive TransactionState where
  | Deposited (client : CustomerId) (amount : Rat)
  | Withdrawed
  | Disputed (client : CustomerId) (amount : Rat)
  | Resolved
  | ChargedBack
deriving DecidableEq

/-- Mirrors `enum Transaction` in domain.rs. -/
inductive Transaction where
  | Deposit (client : CustomerId) (tx : TransactionId) (amount : Rat)
  | Withdrawal (client : CustomerId) (tx : TransactionId) (amount : Rat)
  | Dispute (client : CustomerId) (tx : TransactionId)
  | Resolve (client : CustomerId) (tx : TransactionId)
  | Chargeback (client : CustomerId) (tx : TransactionId)
deriving DecidableEq

/-- Mirrors `struct AccountState` in domain.rs (the snapshot record). -/
structure AccountState where
  client : CustomerId
  available : Rat
  held : Rat
  total : Rat
  locked : Bool
deriving DecidableEq

/-- First-binding lookup in an association list (the model of
`HashMap::get`). -/
def alookup {α β : Type} [DecidableEq α] (key : α) : List (α × β) → Option β
  | [] => none
  | (k, v) :: rest => if k = key then some v else alookup key rest

/-- Replace the first binding of `key` with `val`, appending a fresh
binding when absent (the model of writing through a mutable map entry). -/
def setKey {α β : Type} [DecidableEq α] (key : α) (val : β) : List (α × β) → List (α × β)
  | [] => [(key, val)]
  | (k, v) :: rest => if k = key then (key, val) :: rest else (k, v) :: setKey key val rest

/-- Mirrors `struct AccountingEngine { accounts, transactions }`. -/
structure AccountingEngine where
  accounts : List (CustomerId × Account)
  transactions : List (TransactionId × TransactionState)
deriving DecidableEq

/-- `AccountingEngine::default()`: both maps empty. -/
def AccountingEngine.default : AccountingEngine := ⟨[], []⟩

namespace AccountingEngine

/-- The account currently associated with `c` (the default account when
`c` has no entry), i.e. the value `entry(c).or_default()` observes. -/
def accountOf (e : AccountingEngine) (c : CustomerId) : Account :=
  (alookup c e.accounts).getD Account.default

def availOf (e : AccountingEngine) (c : CustomerId) : Rat := (e.accountOf c).available

def heldOf (e : AccountingEngine) (c : CustomerId) : Rat := (e.accountOf c).held

def lockedOf (e : AccountingEngine) (c : CustomerId) : Bool := (e.accountOf c).locked

/-- The map mutation performed by `entry(client).or_default()`: insert a
default account when `client` has no binding. -/
def entryOrDefault (l : List (CustomerId × Account)) (c : CustomerId) :
    List (CustomerId × Account) :=
  match alookup c l with
  | some _ => l
  | none => (c, Account.default) :: l

/-- Mirrors `AccountingEngine::deposit`. Never panics, hence always
`some`. -/
def deposit (e : AccountingEngine) (client : CustomerId) (tx : TransactionId)
    (amount : Rat) : Option (Bool × AccountingEngine) :=
  let account := e.accountOf client
  let accs := entryOrDefault e.accounts client
  if account.locked then some (false, { e with accounts := accs })
  else
    match alookup tx e.transactions with
    | some _ => some (false, { e with accounts := accs })
    | none =>
        some (true,
          { accounts := setKey client { account with available := account.available + amount } accs,
            transactions := (tx, TransactionState.Deposited client amount) :: e.transactions })

/-- Mirrors `AccountingEngine::withdraw`. Never panics, hence always
`some`. -/
def withdraw (e : AccountingEngine) (client : CustomerId) (tx : TransactionId)
    (amount : Rat) : Option (Bool × AccountingEngine) :=
  let account := e.accountOf client
  let accs := entryOrDefault e.accounts client
  if account.locked || account.available < amount then some (false, { e with accounts := accs })
  else
    match alookup tx e.transactions with
    | some _ => some (false, { e with accounts := accs })
    | none =>
        some (true,
          { accounts := setKey client { account with available := account.available - amount } accs,
            transactions := (tx, TransactionState.Withdrawed) :: e.transactions })

/-- Mirrors `AccountingEngine::dispute`; `none` models the
`expect("Account must exist since the transaction exists")` panic. -/
def dispute (e : AccountingEngine) (client : CustomerId) (tx : TransactionId) :
    Option (Bool × AccountingEngine) :=
  match alookup tx e.transactions with
  | none => some (false, e)
  | some (TransactionState.Deposited depositClient amount) =>
      if depositClient ≠ client then some (false, e)
      else
        match alookup client e.accounts with
        | none => none
        | some account =>
            some (true,
              { accounts := setKey client
                  { account with held := account.held + amount,
                                 available := account.available - amount } e.accounts,
                transactions := setKey tx (TransactionState.Disputed client amount) e.transactions })
  | some _ => some (false, e)

/-- Mirrors `AccountingEngine::resolve`; `none` models the panic. -/
def resolve (e : AccountingEngine) (client : CustomerId) (tx : TransactionId) :
    Option (Bool × AccountingEngine) :=
  match alookup tx e.transactions with
  | none => some (false, e)
  | some (TransactionState.Disputed depositClient amount) =>
      if depositClient ≠ client then some (false, e)
      else
        match alookup client e.accounts with
        | none => none
        | some account =>
            some (true,
              { accounts := setKey client
                  { account with held := account.held - amount,
                                 available := account.available + amount } e.accounts,
                transactions := setKey tx TransactionState.Resolved e.transactions })
  | some _ => some (false, e)

/-- Mirrors `AccountingEngine::chargeback`; `none` models the panic. -/
def chargeback (e : AccountingEngine) (client : CustomerId) (tx : TransactionId) :
    Option (Bool × AccountingEngine) :=
  match alookup tx e.transactions with
  | none => some (false, e)
  | some (TransactionState.Disputed depositClient amount) =>
      if depositClient ≠ client then some (false, e)
      else
        match alookup client e.accounts with
        | none => none
        | some account =>
            some (true,
              { accounts := setKey client
                  { account with held := account.held - amount, locked := true } e.accounts,
                transactions := setKey tx TransactionState.ChargedBack e.transactions })
  | some _ => some (false, e)

/-- Mirrors `AccountingEngine::handle_transaction` (dispatch on the
transaction variant). -/
def handle_transaction (e : AccountingEngine) : Transaction → Option (Bool × AccountingEngine)
  | .Deposit client tx amount => e.deposit client tx amount
  | .Withdrawal client tx amount => e.withdraw client tx amount
  | .Dispute client tx => e.dispute client tx
  | .Resolve client tx => e.resolve client tx
  | .Chargeback client tx => e.chargeback client tx

/-- Mirrors `AccountingEngine::account_states`: one snapshot record per
known customer, with `total` derived at read time. -/
def account_states (e : AccountingEngine) : List AccountState :=
  e.accounts.map fun p =>
    { client := p.1, available := p.2.available, held := p.2.held,
      total := p.2.available + p.2.held, locked := p.2.locked }

end AccountingEngine

/-- The driver loop of main.rs: feed transactions in order, discarding
each boolean outcome; `none` when the engine panics on some step. -/
def applyTxs (e : AccountingEngine) : List Transaction → Option AccountingEngine
  | [] => some e
  | t :: rest =>
      match e.handle_transaction t with
      | none => none
      | some (_, e₁) => applyTxs e₁ rest

/-- States the program can reach: results of running some transaction
sequence from the default (empty) engine. -/
def Reachable (e : AccountingEngine) : Prop :=
  ∃ txs : List Transaction, applyTxs AccountingEngine.default txs = some e

/-- The client field named by a transaction record. -/
def txClient : Transaction → CustomerId
  | .Deposit client _ _ => client
  | .Withdrawal client _ _ => client
  | .Dispute client _ => client
  | .Resolve client _ => client
  | .Chargeback client _ => client

/-- Contribution of one transaction record to a client's held funds: the
amount when the record is a dispute by that client, zero otherwise. -/
def heldContrib (c : CustomerId) : TransactionState → Rat
  | .Disputed cl a => if cl = c then a else 0
  | _ => 0

/-- Sum over the transaction map of each record's contribution to client
`c`'s held funds. -/
def disputedSum (c : CustomerId) (l : List (TransactionId × TransactionState)) : Rat :=
  (l.map fun p => heldContrib c p.2).sum

/-- The engine invariant relating balances to the transaction history:
each account's held funds equal the sum of its currently disputed
amounts. -/
def heldEq (e : AccountingEngine) : Prop :=
  ∀ c, e.heldOf c = disputedSum c e.transactions

/-- The engine invariant behind the `expect("Account must exist ...")`
assertions: every `Deposited` or `Disputed` record names a client that
has an entry in the accounts map. -/
def clientHasAccount (e : AccountingEngine) : Prop :=
  ∀ t c a,
    (alookup t e.transactions = some (TransactionState.Deposited c a) ∨
      alookup t e.transactions = some (TransactionState.Disputed c a)) →
    (alookup c e.accounts).isSome = true

/-- All deposit and dispute records in the history carry nonnegative
amounts. -/
def nonNegRecords (e : AccountingEngine) : Prop :=
  ∀ t c a,
    ((t, TransactionState.Deposited c a) ∈ e.transactions ∨
      (t, TransactionState.Disputed c a) ∈ e.transactions) →
    0 ≤ a

/-- Concrete engine reached by `[Deposit 1 1 1]`: used to discharge
reachability hypotheses in witnesses. -/
def eDep : AccountingEngine :=
  ⟨[(1, ⟨1, 0, false⟩)], [(1, TransactionState.Deposited 1 1)]⟩

/-- Concrete engine reached by `[Deposit 1 1 1, Dispute 1 1]`. -/
def eDisp : AccountingEngine :=
  ⟨[(1, ⟨0, 1, false⟩)], [(1, TransactionState.Disputed 1 1)]⟩

/-- Concrete engine reached by `[Deposit 1 1 1, Dispute 1 1, Chargeback 1 1]`:
the account is locked. -/
def eLock : AccountingEngine :=
  ⟨[(1, ⟨0, 0, true⟩)], [(1, TransactionState.ChargedBack)]⟩

/-- Concrete engine reached by `[Deposit 1 1 (-1), Dispute 1 1]`: a negative
deposit amount has driven held funds negative. -/
def eNeg : AccountingEngine :=
  ⟨[(1, ⟨0, -1, false⟩)], [(1, TransactionState.Disputed 1 (-1))]⟩

/-- Concrete engine reached by `[Deposit 1 1 1, Dispute 1 1, Resolve 1 1]`:
transaction 1 is in the terminal `Resolved` state. -/
def eTerm : AccountingEngine :=
  ⟨[(1, ⟨1, 0, false⟩)], [(1, TransactionState.Resolved)]⟩


end TransactionsEngine

namespace TransactionsEngine

section AlistLemmas

variable {α β : Type} [DecidableEq α]

lemma alookup_setKey_self (k : α) (v : β) (l : List (α × β)) :
    alookup k (setKey k v l) = some v := by
  induction l with
  | nil => simp [setKey, alookup]
  | cons p rest ih =>
      obtain ⟨k₁, v₁⟩ := p
      by_cases h : k₁ = k
      · simp [setKey, h, alookup]
      · simp [setKey, h, alookup, ih]

lemma alookup_setKey_ne {c k : α} (h : c ≠ k) (v : β) (l : List (α × β)) :
    alookup c (setKey k v l) = alookup c l := by
  induction l with
  | nil => simp [setKey, alookup, (Ne.symm h : ¬ k = c)]
  | cons p rest ih =>
      obtain ⟨k₁, v₁⟩ := p
      by_cases hk : k₁ = k
      · subst hk
        simp [setKey, alookup, (Ne.symm h : ¬ k₁ = c)]
      · simp only [setKey, if_neg hk, alookup]
        rw [ih]

lemma alookup_mem {k : α} {v : β} {l : List (α × β)} (h : alookup k l = some v) :
    (k, v) ∈ l := by
  induction l with
  | nil => simp [alookup] at h
  | cons p rest ih =>
      obtain ⟨k₁, v₁⟩ := p
      by_cases hk : k₁ = k
      · subst hk
        simp [alookup] at h
        simp [h]
      · simp [alookup, hk] at h
        exact List.mem_cons_of_mem _ (ih h)

lemma mem_setKey {k : α} {v : β} {p : α × β} {l : List (α × β)}
    (h : p ∈ setKey k v l) : p = (k, v) ∨ p ∈ l := by
  induction l with
  | nil => simp [setKey] at h; simp [h]
  | cons q rest ih =>
      obtain ⟨k₁, v₁⟩ := q
      by_cases hk : k₁ = k
      · simp [setKey, hk] at h
        rcases h with h | h
        · exact Or.inl (by simp [h])
        · exact Or.inr (List.mem_cons_of_mem _ h)
      · simp only [setKey, if_neg hk, List.mem_cons] at h
        rcases h with h | h
        · exact Or.inr (by simp [h])
        · rcases ih h with h' | h'
          · exact Or.inl h'
          · exact Or.inr (List.mem_cons_of_mem _ h')

lemma isSome_alookup_setKey {c k : α} (v : β) (l : List (α × β))
    (h : (alookup c l).isSome = true) : (alookup c (setKey k v l)).isSome = true := by
  by_cases hc : c = k
  · subst hc; simp [alookup_setKey_self]
  · rwa [alookup_setKey_ne hc]

lemma alookup_cons_self (k : α) (v : β) (l : List (α × β)) :
    alookup k ((k, v) :: l) = some v := by
  simp [alookup]

lemma alookup_cons_ne {k c : α} (h : k ≠ c) (v : β) (l : List (α × β)) :
    alookup c ((k, v) :: l) = alookup c l := by
  simp [alookup, h]

end AlistLemmas

namespace AccountingEngine

lemma alookup_entryOrDefault_ne {c k : CustomerId} (h : c ≠ k)
    (l : List (CustomerId × Account)) :
    alookup c (entryOrDefault l k) = alookup c l := by
  unfold entryOrDefault
  cases hl : alookup k l with
  | some a => rfl
  | none => simp [alookup, (Ne.symm h : ¬ k = c)]

lemma alookup_entryOrDefault_self (k : CustomerId) (l : List (CustomerId × Account)) :
    alookup k (entryOrDefault l k) = some ((alookup k l).getD Account.default) := by
  unfold entryOrDefault
  cases hl : alookup k l with
  | some a => simp [hl]
  | none => simp [alookup]

lemma alookup_entryOrDefault_of_some {c k : CustomerId} {acc : Account}
    {l : List (CustomerId × Account)} (h : alookup c l = some acc) :
    alookup c (entryOrDefault l k) = some acc := by
  by_cases hc : c = k
  · subst hc
    rw [alookup_entryOrDefault_self, h]
    rfl
  · rwa [alookup_entryOrDefault_ne hc]

lemma getD_alookup_entryOrDefault (c k : CustomerId) (l : List (CustomerId × Account)) :
    (alookup c (entryOrDefault l k)).getD Account.default =
      (alookup c l).getD Account.default := by
  by_cases hc : c = k
  · subst hc
    rw [alookup_entryOrDefault_self]
    rfl
  · rw [alookup_entryOrDefault_ne hc]

end AccountingEngine

end TransactionsEngine

namespace TransactionsEngine

namespace AccountingEngine

variable {e : AccountingEngine} {client : CustomerId} {tx : TransactionId} {amount : Rat}

lemma deposit_locked (h : (e.accountOf client).locked = true) :
    e.deposit client tx amount =
      some (false, { e with accounts := entryOrDefault e.accounts client }) := by
  simp [deposit, h]

lemma deposit_dup {s : TransactionState} (h : (e.accountOf client).locked = false)
    (h₂ : alookup tx e.transactions = some s) :
    e.deposit client tx amount =
      some (false, { e with accounts := entryOrDefault e.accounts client }) := by
  simp [deposit, h, h₂]

lemma deposit_ok (h : (e.accountOf client).locked = false)
    (h₂ : alookup tx e.transactions = none) :
    e.deposit client tx amount =
      some (true,
        ⟨setKey client
            { e.accountOf client with available := (e.accountOf client).available + amount }
            (entryOrDefault e.accounts client),
          (tx, TransactionState.Deposited client amount) :: e.transactions⟩) := by
  simp [deposit, h, h₂]

lemma withdraw_stopped
    (h : (e.accountOf client).locked = true ∨ (e.accountOf client).available < amount) :
    e.withdraw client tx amount =
      some (false, { e with accounts := entryOrDefault e.accounts client }) := by
  rcases h with h | h <;> simp [withdraw, h]

lemma withdraw_dup {s : TransactionState} (h : (e.accountOf client).locked = false)
    (h₁ : ¬ (e.accountOf client).available < amount)
    (h₂ : alookup tx e.transactions = some s) :
    e.withdraw client tx amount =
      some (false, { e with accounts := entryOrDefault e.accounts client }) := by
  simp [withdraw, h, h₁, h₂]

lemma withdraw_ok (h : (e.accountOf client).locked = false)
    (h₁ : ¬ (e.accountOf client).available < amount)
    (h₂ : alookup tx e.transactions = none) :
    e.withdraw client tx amount =
      some (true,
        ⟨setKey client
            { e.accountOf client with available := (e.accountOf client).available - amount }
            (entryOrDefault e.accounts client),
          (tx, TransactionState.Withdrawed) :: e.transactions⟩) := by
  simp [withdraw, h, h₁, h₂]

lemma dispute_no_tx (h : alookup tx e.transactions = none) :
    e.dispute client tx = some (false, e) := by
  simp [dispute, h]

lemma dispute_not_deposited {s : TransactionState} (h : alookup tx e.transactions = some s)
    (hs : ∀ c a, s ≠ TransactionState.Deposited c a) :
    e.dispute client tx = some (false, e) := by
  cases s with
  | Deposited c a => exact absurd rfl (hs c a)
  | Withdrawed => simp [dispute, h]
  | Disputed c a => simp [dispute, h]
  | Resolved => simp [dispute, h]
  | ChargedBack => simp [dispute, h]

lemma dispute_mismatch {dc : CustomerId} {a : Rat}
    (h : alookup tx e.transactions = some (TransactionState.Deposited dc a))
    (hne : dc ≠ client) :
    e.dispute client tx = some (false, e) := by
  simp [dispute, h, hne]

lemma dispute_panic {a : Rat}
    (h : alookup tx e.transactions = some (TransactionState.Deposited client a))
    (hacc : alookup client e.accounts = none) :
    e.dispute client tx = none := by
  simp [dispute, h, hacc]

lemma dispute_ok {a : Rat} {account : Account}
    (h : alookup tx e.transactions = some (TransactionState.Deposited client a))
    (hacc : alookup client e.accounts = some account) :
    e.dispute client tx =
      some (true,
        ⟨setKey client
            { account with held := account.held + a, available := account.available - a }
            e.accounts,
          setKey tx (TransactionState.Disputed client a) e.transactions⟩) := by
  simp [dispute, h, hacc]

lemma resolve_no_tx (h : alookup tx e.transactions = none) :
    e.resolve client tx = some (false, e) := by
  simp [resolve, h]

lemma resolve_not_disputed {s : TransactionState} (h : alookup tx e.transactions = some s)
    (hs : ∀ c a, s ≠ TransactionState.Disputed c a) :
    e.resolve client tx = some (false, e) := by
  cases s with
  | Disputed c a => exact absurd rfl (hs c a)
  | Deposited c a => simp [resolve, h]
  | Withdrawed => simp [resolve, h]
  | Resolved => simp [resolve, h]
  | ChargedBack => simp [resolve, h]

lemma resolve_mismatch {dc : CustomerId} {a : Rat}
    (h : alookup tx e.transactions = some (TransactionState.Disputed dc a))
    (hne : dc ≠ client) :
    e.resolve client tx = some (false, e) := by
  simp [resolve, h, hne]

lemma resolve_panic {a : Rat}
    (h : alookup tx e.transactions = some (TransactionState.Disputed client a))
    (hacc : alookup client e.accounts = none) :
    e.resolve client tx = none := by
  simp [resolve, h, hacc]

lemma resolve_ok {a : Rat} {account : Account}
    (h : alookup tx e.transactions = some (TransactionState.Disputed client a))
    (hacc : alookup client e.accounts = some account) :
    e.resolve client tx =
      some (true,
        ⟨setKey client
            { account with held := account.held - a, available := account.available + a }
            e.accounts,
          setKey tx TransactionState.Resolved e.transactions⟩) := by
  simp [resolve, h, hacc]

lemma chargeback_no_tx (h : alookup tx e.transactions = none) :
    e.chargeback client tx = some (false, e) := by
  simp [chargeback, h]

lemma chargeback_not_disputed {s : TransactionState} (h : alookup tx e.transactions = some s)
    (hs : ∀ c a, s ≠ TransactionState.Disputed c a) :
    e.chargeback client tx = some (false, e) := by
  cases s with
  | Disputed c a => exact absurd rfl (hs c a)
  | Deposited c a => simp [chargeback, h]
  | Withdrawed => simp [chargeback, h]
  | Resolved => simp [chargeback, h]
  | ChargedBack => simp [chargeback, h]

lemma chargeback_mismatch {dc : CustomerId} {a : Rat}
    (h : alookup tx e.transactions = some (TransactionState.Disputed dc a))
    (hne : dc ≠ client) :
    e.chargeback client tx = some (false, e) := by
  simp [chargeback, h, hne]

lemma chargeback_panic {a : Rat}
    (h : alookup tx e.transactions = some (TransactionState.Disputed client a))
    (hacc : alookup client e.accounts = none) :
    e.chargeback client tx = none := by
  simp [chargeback, h, hacc]

lemma chargeback_ok {a : Rat} {account : Account}
    (h : alookup tx e.transactions = some (TransactionState.Disputed client a))
    (hacc : alookup client e.accounts = some account) :
    e.chargeback client tx =
      some (true,
        ⟨setKey client { account with held := account.held - a, locked := true } e.accounts,
          setKey tx TransactionState.ChargedBack e.transactions⟩) := by
  simp [chargeback, h, hacc]

end AccountingEngine

end TransactionsEngine

namespace TransactionsEngine

open AccountingEngine

lemma disputedSum_cons (c : CustomerId) (t : TransactionId) (s : TransactionState)
    (l : List (TransactionId × TransactionState)) :
    disputedSum c ((t, s) :: l) = heldContrib c s + disputedSum c l := by
  simp [disputedSum]

lemma disputedSum_setKey {t : TransactionId} {w : TransactionState}
    {l : List (TransactionId × TransactionState)} (c : CustomerId)
    (h : alookup t l = some w) (v : TransactionState) :
    disputedSum c (setKey t v l) = disputedSum c l - heldContrib c w + heldContrib c v := by
  induction l with
  | nil => simp [alookup] at h
  | cons p rest ih =>
      obtain ⟨t₁, s₁⟩ := p
      by_cases ht : t₁ = t
      · subst ht
        simp [alookup] at h
        subst h
        simp [setKey, disputedSum_cons]
        ring
      · simp only [alookup, if_neg ht] at h
        simp only [setKey, if_neg ht, disputedSum_cons, ih h]
        ring

namespace AccountingEngine

lemma isSome_alookup_entryOrDefault {c : CustomerId} {l : List (CustomerId × Account)}
    (k : CustomerId) (h : (alookup c l).isSome = true) :
    (alookup c (entryOrDefault l k)).isSome = true := by
  obtain ⟨acc, hacc⟩ := Option.isSome_iff_exists.mp h
  rw [alookup_entryOrDefault_of_some hacc]
  rfl

lemma accountOf_setKey (l : List (CustomerId × Account)) (k c : CustomerId) (v : Account) :
    (alookup c (setKey k v l)).getD Account.default =
      if c = k then v else (alookup c l).getD Account.default := by
  by_cases hc : c = k
  · subst hc
    simp [alookup_setKey_self]
  · simp [hc, alookup_setKey_ne hc]

lemma accountOf_setKey_entry (l : List (CustomerId × Account)) (k c : CustomerId) (v : Account) :
    (alookup c (setKey k v (entryOrDefault l k))).getD Account.default =
      if c = k then v else (alookup c l).getD Account.default := by
  rw [accountOf_setKey]
  by_cases hc : c = k
  · simp [hc]
  · simp [hc, getD_alookup_entryOrDefault]

end AccountingEngine

end TransactionsEngine

namespace TransactionsEngine

open AccountingEngine

lemma pres_entry (e : AccountingEngine) (client : CustomerId)
    (hchas : clientHasAccount e) (hheq : heldEq e) :
    clientHasAccount { e with accounts := entryOrDefault e.accounts client } ∧
      heldEq { e with accounts := entryOrDefault e.accounts client } := by
  constructor
  · intro t c a hmem
    exact isSome_alookup_entryOrDefault client (hchas t c a hmem)
  · intro c
    simp only [heldOf, accountOf, getD_alookup_entryOrDefault]
    exact hheq c

lemma handle_pres {e e' : AccountingEngine} {tr : Transaction} {r : Bool}
    (hchas : clientHasAccount e) (hheq : heldEq e)
    (h : e.handle_transaction tr = some (r, e')) :
    (clientHasAccount e' ∧ heldEq e') ∧
      (nonNegRecords e → (∀ c x a, tr = Transaction.Deposit c x a → 0 ≤ a) →
        nonNegRecords e') := by
  cases tr with
  | Deposit client tx amount =>
      simp only [handle_transaction] at h
      by_cases hl : (e.accountOf client).locked = true
      · rw [deposit_locked hl] at h
        simp only [Option.some.injEq, Prod.mk.injEq] at h
        obtain ⟨hr, he⟩ := h
        subst he
        exact ⟨pres_entry e client hchas hheq, fun hNN _ => hNN⟩
      · rw [Bool.not_eq_true] at hl
        cases htx : alookup tx e.transactions with
        | some s =>
            rw [deposit_dup hl htx] at h
            simp only [Option.some.injEq, Prod.mk.injEq] at h
            obtain ⟨hr, he⟩ := h
            subst he
            exact ⟨pres_entry e client hchas hheq, fun hNN _ => hNN⟩
        | none =>
            rw [deposit_ok hl htx] at h
            simp only [Option.some.injEq, Prod.mk.injEq] at h
            obtain ⟨hr, he⟩ := h
            subst he
            refine ⟨⟨?_, ?_⟩, ?_⟩
            · intro t c a hmem
              by_cases htt : tx = t
              · subst htt
                rw [alookup_cons_self] at hmem
                rcases hmem with hm | hm
                · simp only [Option.some.injEq, TransactionState.Deposited.injEq] at hm
                  obtain ⟨rfl, -⟩ := hm
                  rw [alookup_setKey_self]
                  rfl
                · simp at hm
              · rw [alookup_cons_ne htt] at hmem
                exact isSome_alookup_setKey _ _
                  (isSome_alookup_entryOrDefault client (hchas t c a hmem))
            · intro c
              simp only [heldOf, accountOf, accountOf_setKey_entry, disputedSum_cons]
              by_cases hc : c = client
              · subst hc
                simpa [heldContrib, heldOf, accountOf] using hheq c
              · simpa [hc, heldContrib, heldOf, accountOf] using hheq c
            · intro hNN hamt t c a hmem
              rcases hmem with hm | hm
              · rcases List.mem_cons.mp hm with h₀ | h₀
                · simp only [Prod.mk.injEq, TransactionState.Deposited.injEq] at h₀
                  obtain ⟨-, -, ha⟩ := h₀
                  exact ha ▸ hamt client tx amount rfl
                · exact hNN t c a (Or.inl h₀)
              · rcases List.mem_cons.mp hm with h₀ | h₀
                · simp at h₀
                · exact hNN t c a (Or.inr h₀)
  | Withdrawal client tx amount =>
      simp only [handle_transaction] at h
      by_cases hl : (e.accountOf client).locked = true
      · rw [withdraw_stopped (Or.inl hl)] at h
        simp only [Option.some.injEq, Prod.mk.injEq] at h
        obtain ⟨hr, he⟩ := h
        subst he
        exact ⟨pres_entry e client hchas hheq, fun hNN _ => hNN⟩
      · rw [Bool.not_eq_true] at hl
        by_cases hav : (e.accountOf client).available < amount
        · rw [withdraw_stopped (Or.inr hav)] at h
          simp only [Option.some.injEq, Prod.mk.injEq] at h
          obtain ⟨hr, he⟩ := h
          subst he
          exact ⟨pres_entry e client hchas hheq, fun hNN _ => hNN⟩
        · cases htx : alookup tx e.transactions with
          | some s =>
              rw [withdraw_dup hl hav htx] at h
              simp only [Option.some.injEq, Prod.mk.injEq] at h
              obtain ⟨hr, he⟩ := h
              subst he
              exact ⟨pres_entry e client hchas hheq, fun hNN _ => hNN⟩
          | none =>
              rw [withdraw_ok hl hav htx] at h
              simp only [Option.some.injEq, Prod.mk.injEq] at h
              obtain ⟨hr, he⟩ := h
              subst he
              refine ⟨⟨?_, ?_⟩, ?_⟩
              · intro t c a hmem
                by_cases htt : tx = t
                · subst htt
                  rw [alookup_cons_self] at hmem
                  rcases hmem with hm | hm <;> simp at hm
                · rw [alookup_cons_ne htt] at hmem
                  exact isSome_alookup_setKey _ _
                    (isSome_alookup_entryOrDefault client (hchas t c a hmem))
              · intro c
                simp only [heldOf, accountOf, accountOf_setKey_entry, disputedSum_cons]
                by_cases hc : c = client
                · subst hc
                  simpa [heldContrib, heldOf, accountOf] using hheq c
                · simpa [hc, heldContrib, heldOf, accountOf] using hheq c
              · intro hNN hamt t c a hmem
                rcases hmem with hm | hm
                · rcases List.mem_cons.mp hm with h₀ | h₀
                  · simp at h₀
                  · exact hNN t c a (Or.inl h₀)
                · rcases List.mem_cons.mp hm with h₀ | h₀
                  · simp at h₀
                  · exact hNN t c a (Or.inr h₀)
  | Dispute client tx =>
      simp only [handle_transaction] at h
      cases htx : alookup tx e.transactions with
      | none =>
          rw [dispute_no_tx htx] at h
          simp only [Option.some.injEq, Prod.mk.injEq] at h
          obtain ⟨hr, he⟩ := h
          subst he
          exact ⟨⟨hchas, hheq⟩, fun hNN _ => hNN⟩
      | some s =>
          cases s with
          | Deposited dc a =>
              by_cases hdc : dc = client
              · subst hdc
                have hacc : (alookup dc e.accounts).isSome = true :=
                  hchas tx dc a (Or.inl htx)
                obtain ⟨account, haccount⟩ := Option.isSome_iff_exists.mp hacc
                rw [dispute_ok htx haccount] at h
                simp only [Option.some.injEq, Prod.mk.injEq] at h
                obtain ⟨hr, he⟩ := h
                subst he
                refine ⟨⟨?_, ?_⟩, ?_⟩
                · intro t c a₁ hmem
                  by_cases htt : t = tx
                  · subst htt
                    rw [alookup_setKey_self] at hmem
                    rcases hmem with hm | hm
                    · simp at hm
                    · simp only [Option.some.injEq, TransactionState.Disputed.injEq] at hm
                      obtain ⟨rfl, -⟩ := hm
                      rw [alookup_setKey_self]
                      rfl
                  · rw [alookup_setKey_ne htt] at hmem
                    exact isSome_alookup_setKey _ _ (hchas t c a₁ hmem)
                · intro c
                  have hsum := disputedSum_setKey c htx (TransactionState.Disputed dc a)
                  have hheqc := hheq c
                  simp only [heldOf, accountOf] at hheqc ⊢
                  rw [accountOf_setKey, hsum]
                  by_cases hc : c = dc
                  · subst hc
                    rw [haccount] at hheqc
                    simp only [Option.getD_some] at hheqc
                    simp [heldContrib, hheqc]
                  · simp [hc, heldContrib, Ne.symm hc, hheqc]
                · intro hNN _ t c a₁ hmem
                  rcases hmem with hm | hm
                  · rcases mem_setKey hm with h₀ | h₀
                    · simp at h₀
                    · exact hNN t c a₁ (Or.inl h₀)
                  · rcases mem_setKey hm with h₀ | h₀
                    · simp only [Prod.mk.injEq, TransactionState.Disputed.injEq] at h₀
                      obtain ⟨-, -, ha⟩ := h₀
                      exact ha ▸ hNN tx dc a (Or.inl (alookup_mem htx))
                    · exact hNN t c a₁ (Or.inr h₀)
              · rw [dispute_mismatch htx hdc] at h
                simp only [Option.some.injEq, Prod.mk.injEq] at h
                obtain ⟨hr, he⟩ := h
                subst he
                exact ⟨⟨hchas, hheq⟩, fun hNN _ => hNN⟩
          | Withdrawed =>
              rw [dispute_not_deposited htx (fun c a h₀ => TransactionState.noConfusion h₀)] at h
              simp only [Option.some.injEq, Prod.mk.injEq] at h
              obtain ⟨hr, he⟩ := h
              subst he
              exact ⟨⟨hchas, hheq⟩, fun hNN _ => hNN⟩
          | Disputed dc a =>
              rw [dispute_not_deposited htx (fun c a₁ h₀ => TransactionState.noConfusion h₀)] at h
              simp only [Option.some.injEq, Prod.mk.injEq] at h
              obtain ⟨hr, he⟩ := h
              subst he
              exact ⟨⟨hchas, hheq⟩, fun hNN _ => hNN⟩
          | Resolved =>
              rw [dispute_not_deposited htx (fun c a h₀ => TransactionState.noConfusion h₀)] at h
              simp only [Option.some.injEq, Prod.mk.injEq] at h
              obtain ⟨hr, he⟩ := h
              subst he
              exact ⟨⟨hchas, hheq⟩, fun hNN _ => hNN⟩
          | ChargedBack =>
              rw [dispute_not_deposited htx (fun c a h₀ => TransactionState.noConfusion h₀)] at h
              simp only [Option.some.injEq, Prod.mk.injEq] at h
              obtain ⟨hr, he⟩ := h
              subst he
              exact ⟨⟨hchas, hheq⟩, fun hNN _ => hNN⟩
  | Resolve client tx =>
      simp only [handle_transaction] at h
      cases htx : alookup tx e.transactions with
      | none =>
          rw [resolve_no_tx htx] at h
          simp only [Option.some.injEq, Prod.mk.injEq] at h
          obtain ⟨hr, he⟩ := h
          subst he
          exact ⟨⟨hchas, hheq⟩, fun hNN _ => hNN⟩
      | some s =>
          cases s with
          | Disputed dc a =>
              by_cases hdc : dc = client
              · subst hdc
                have hacc : (alookup dc e.accounts).isSome = true :=
                  hchas tx dc a (Or.inr htx)
                obtain ⟨account, haccount⟩ := Option.isSome_iff_exists.mp hacc
                rw [resolve_ok htx haccount] at h
                simp only [Option.some.injEq, Prod.mk.injEq] at h
                obtain ⟨hr, he⟩ := h
                subst he
                refine ⟨⟨?_, ?_⟩, ?_⟩
                · intro t c a₁ hmem
                  by_cases htt : t = tx
                  · subst htt
                    rw [alookup_setKey_self] at hmem
                    rcases hmem with hm | hm <;> simp at hm
                  · rw [alookup_setKey_ne htt] at hmem
                    exact isSome_alookup_setKey _ _ (hchas t c a₁ hmem)
                · intro c
                  have hsum := disputedSum_setKey c htx TransactionState.Resolved
                  have hheqc := hheq c
                  simp only [heldOf, accountOf] at hheqc ⊢
                  rw [accountOf_setKey, hsum]
                  by_cases hc : c = dc
                  · subst hc
                    rw [haccount] at hheqc
                    simp only [Option.getD_some] at hheqc
                    simp [heldContrib, hheqc]
                  · simp [hc, heldContrib, Ne.symm hc, hheqc]
                · intro hNN _ t c a₁ hmem
                  rcases hmem with hm | hm
                  · rcases mem_setKey hm with h₀ | h₀
                    · simp at h₀
                    · exact hNN t c a₁ (Or.inl h₀)
                  · rcases mem_setKey hm with h₀ | h₀
                    · simp at h₀
                    · exact hNN t c a₁ (Or.inr h₀)
              · rw [resolve_mismatch htx hdc] at h
                simp only [Option.some.injEq, Prod.mk.injEq] at h
                obtain ⟨hr, he⟩ := h
                subst he
                exact ⟨⟨hchas, hheq⟩, fun hNN _ => hNN⟩
          | Deposited dc a =>
              rw [resolve_not_disputed htx (fun c a₁ h₀ => TransactionState.noConfusion h₀)] at h
              simp only [Option.some.injEq, Prod.mk.injEq] at h
              obtain ⟨hr, he⟩ := h
              subst he
              exact ⟨⟨hchas, hheq⟩, fun hNN _ => hNN⟩
          | Withdrawed =>
              rw [resolve_not_disputed htx (fun c a h₀ => TransactionState.noConfusion h₀)] at h
              simp only [Option.some.injEq, Prod.mk.injEq] at h
              obtain ⟨hr, he⟩ := h
              subst he
              exact ⟨⟨hchas, hheq⟩, fun hNN _ => hNN⟩
          | Resolved =>
              rw [resolve_not_disputed htx (fun c a h₀ => TransactionState.noConfusion h₀)] at h
              simp only [Option.some.injEq, Prod.mk.injEq] at h
              obtain ⟨hr, he⟩ := h
              subst he
              exact ⟨⟨hchas, hheq⟩, fun hNN _ => hNN⟩
          | ChargedBack =>
              rw [resolve_not_disputed htx (fun c a h₀ => TransactionState.noConfusion h₀)] at h
              simp only [Option.some.injEq, Prod.mk.injEq] at h
              obtain ⟨hr, he⟩ := h
              subst he
              exact ⟨⟨hchas, hheq⟩, fun hNN _ => hNN⟩
  | Chargeback client tx =>
      simp only [handle_transaction] at h
      cases htx : alookup tx e.transactions with
      | none =>
          rw [chargeback_no_tx htx] at h
          simp only [Option.some.injEq, Prod.mk.injEq] at h
          obtain ⟨hr, he⟩ := h
          subst he
          exact ⟨⟨hchas, hheq⟩, fun hNN _ => hNN⟩
      | some s =>
          cases s with
          | Disputed dc a =>
              by_cases hdc : dc = client
              · subst hdc
                have hacc : (alookup dc e.accounts).isSome = true :=
                  hchas tx dc a (Or.inr htx)
                obtain ⟨account, haccount⟩ := Option.isSome_iff_exists.mp hacc
                rw [chargeback_ok htx haccount] at h
                simp only [Option.some.injEq, Prod.mk.injEq] at h
                obtain ⟨hr, he⟩ := h
                subst he
                refine ⟨⟨?_, ?_⟩, ?_⟩
                · intro t c a₁ hmem
                  by_cases htt : t = tx
                  · subst htt
                    rw [alookup_setKey_self] at hmem
                    rcases hmem with hm | hm <;> simp at hm
                  · rw [alookup_setKey_ne htt] at hmem
                    exact isSome_alookup_setKey _ _ (hchas t c a₁ hmem)
                · intro c
                  have hsum := disputedSum_setKey c htx TransactionState.ChargedBack
                  have hheqc := hheq c
                  simp only [heldOf, accountOf] at hheqc ⊢
                  rw [accountOf_setKey, hsum]
                  by_cases hc : c = dc
                  · subst hc
                    rw [haccount] at hheqc
                    simp only [Option.getD_some] at hheqc
                    simp [heldContrib, hheqc]
                  · simp [hc, heldContrib, Ne.symm hc, hheqc]
                · intro hNN _ t c a₁ hmem
                  rcases hmem with hm | hm
                  · rcases mem_setKey hm with h₀ | h₀
                    · simp at h₀
                    · exact hNN t c a₁ (Or.inl h₀)
                  · rcases mem_setKey hm with h₀ | h₀
                    · simp at h₀
                    · exact hNN t c a₁ (Or.inr h₀)
              · rw [chargeback_mismatch htx hdc] at h
                simp only [Option.some.injEq, Prod.mk.injEq] at h
                obtain ⟨hr, he⟩ := h
                subst he
                exact ⟨⟨hchas, hheq⟩, fun hNN _ => hNN⟩
          | Deposited dc a =>
              rw [chargeback_not_disputed htx (fun c a₁ h₀ => TransactionState.noConfusion h₀)] at h
              simp only [Option.some.injEq, Prod.mk.injEq] at h
              obtain ⟨hr, he⟩ := h
              subst he
              exact ⟨⟨hchas, hheq⟩, fun hNN _ => hNN⟩
          | Withdrawed =>
              rw [chargeback_not_disputed htx (fun c a h₀ => TransactionState.noConfusion h₀)] at h
              simp only [Option.some.injEq, Prod.mk.injEq] at h
              obtain ⟨hr, he⟩ := h
              subst he
              exact ⟨⟨hchas, hheq⟩, fun hNN _ => hNN⟩
          | Resolved =>
              rw [chargeback_not_disputed htx (fun c a h₀ => TransactionState.noConfusion h₀)] at h
              simp only [Option.some.injEq, Prod.mk.injEq] at h
              obtain ⟨hr, he⟩ := h
              subst he
              exact ⟨⟨hchas, hheq⟩, fun hNN _ => hNN⟩
          | ChargedBack =>
              rw [chargeback_not_disputed htx (fun c a h₀ => TransactionState.noConfusion h₀)] at h
              simp only [Option.some.injEq, Prod.mk.injEq] at h
              obtain ⟨hr, he⟩ := h
              subst he
              exact ⟨⟨hchas, hheq⟩, fun hNN _ => hNN⟩

end TransactionsEngine

namespace TransactionsEngine

open AccountingEngine

lemma handle_total {e : AccountingEngine} (hchas : clientHasAccount e) (tr : Transaction) :
    (e.handle_transaction tr).isSome = true := by
  cases tr with
  | Deposit client tx amount =>
      simp only [handle_transaction]
      by_cases hl : (e.accountOf client).locked = true
      · rw [deposit_locked hl]; rfl
      · rw [Bool.not_eq_true] at hl
        cases htx : alookup tx e.transactions with
        | some s => rw [deposit_dup hl htx]; rfl
        | none => rw [deposit_ok hl htx]; rfl
  | Withdrawal client tx amount =>
      simp only [handle_transaction]
      by_cases hl : (e.accountOf client).locked = true
      · rw [withdraw_stopped (Or.inl hl)]; rfl
      · rw [Bool.not_eq_true] at hl
        by_cases hav : (e.accountOf client).available < amount
        · rw [withdraw_stopped (Or.inr hav)]; rfl
        · cases htx : alookup tx e.transactions with
          | some s => rw [withdraw_dup hl hav htx]; rfl
          | none => rw [withdraw_ok hl hav htx]; rfl
  | Dispute client tx =>
      simp only [handle_transaction]
      cases htx : alookup tx e.transactions with
      | none => rw [dispute_no_tx htx]; rfl
      | some s =>
          cases s with
          | Deposited dc a =>
              by_cases hdc : dc = client
              · subst hdc
                obtain ⟨account, haccount⟩ :=
                  Option.isSome_iff_exists.mp (hchas tx dc a (Or.inl htx))
                rw [dispute_ok htx haccount]; rfl
              · rw [dispute_mismatch htx hdc]; rfl
          | Withdrawed =>
              rw [dispute_not_deposited htx (fun c a h₀ => TransactionState.noConfusion h₀)]; rfl
          | Disputed dc a =>
              rw [dispute_not_deposited htx (fun c a₁ h₀ => TransactionState.noConfusion h₀)]; rfl
          | Resolved =>
              rw [dispute_not_deposited htx (fun c a h₀ => TransactionState.noConfusion h₀)]; rfl
          | ChargedBack =>
              rw [dispute_not_deposited htx (fun c a h₀ => TransactionState.noConfusion h₀)]; rfl
  | Resolve client tx =>
      simp only [handle_transaction]
      cases htx : alookup tx e.transactions with
      | none => rw [resolve_no_tx htx]; rfl
      | some s =>
          cases s with
          | Disputed dc a =>
              by_cases hdc : dc = client
              · subst hdc
                obtain ⟨account, haccount⟩ :=
                  Option.isSome_iff_exists.mp (hchas tx dc a (Or.inr htx))
                rw [resolve_ok htx haccount]; rfl
              · rw [resolve_mismatch htx hdc]; rfl
          | Deposited dc a =>
              rw [resolve_not_disputed htx (fun c a₁ h₀ => TransactionState.noConfusion h₀)]; rfl
          | Withdrawed =>
              rw [resolve_not_disputed htx (fun c a h₀ => TransactionState.noConfusion h₀)]; rfl
          | Resolved =>
              rw [resolve_not_disputed htx (fun c a h₀ => TransactionState.noConfusion h₀)]; rfl
          | ChargedBack =>
              rw [resolve_not_disputed htx (fun c a h₀ => TransactionState.noConfusion h₀)]; rfl
  | Chargeback client tx =>
      simp only [handle_transaction]
      cases htx : alookup tx e.transactions with
      | none => rw [chargeback_no_tx htx]; rfl
      | some s =>
          cases s with
          | Disputed dc a =>
              by_cases hdc : dc = client
              · subst hdc
                obtain ⟨account, haccount⟩ :=
                  Option.isSome_iff_exists.mp (hchas tx dc a (Or.inr htx))
                rw [chargeback_ok htx haccount]; rfl
              · rw [chargeback_mismatch htx hdc]; rfl
          | Deposited dc a =>
              rw [chargeback_not_disputed htx (fun c a₁ h₀ => TransactionState.noConfusion h₀)]; rfl
          | Withdrawed =>
              rw [chargeback_not_disputed htx (fun c a h₀ => TransactionState.noConfusion h₀)]; rfl
          | Resolved =>
              rw [chargeback_not_disputed htx (fun c a h₀ => TransactionState.noConfusion h₀)]; rfl
          | ChargedBack =>
              rw [chargeback_not_disputed htx (fun c a h₀ => TransactionState.noConfusion h₀)]; rfl

lemma applyTxs_sound (txs : List Transaction) :
    ∀ {e : AccountingEngine}, clientHasAccount e → heldEq e →
      ∃ e₁, applyTxs e txs = some e₁ ∧ clientHasAccount e₁ ∧ heldEq e₁ ∧
        (nonNegRecords e →
          (∀ t ∈ txs, ∀ c x a, t = Transaction.Deposit c x a → 0 ≤ a) →
          nonNegRecords e₁) := by
  induction txs with
  | nil =>
      intro e hchas hheq
      exact ⟨e, rfl, hchas, hheq, fun h _ => h⟩
  | cons tr rest ih =>
      intro e hchas hheq
      obtain ⟨p, hp⟩ := Option.isSome_iff_exists.mp (handle_total hchas tr)
      obtain ⟨r, e₁⟩ := p
      obtain ⟨⟨hchas₁, hheq₁⟩, hNN₁⟩ := handle_pres hchas hheq hp
      obtain ⟨e₂, happ, hchas₂, hheq₂, hNN₂⟩ := ih hchas₁ hheq₁
      refine ⟨e₂, ?_, hchas₂, hheq₂, ?_⟩
      · simp [applyTxs, hp, happ]
      · intro hNN hamts
        refine hNN₂ (hNN₁ hNN fun c x a ht => hamts tr (List.mem_cons_self _ _) c x a ht) ?_
        intro t ht c x a h₀
        exact hamts t (List.mem_cons_of_mem _ ht) c x a h₀

lemma default_clientHas : clientHasAccount AccountingEngine.default := by
  intro t c a hmem
  rcases hmem with hm | hm <;> simp [AccountingEngine.default, alookup] at hm

lemma default_heldEq : heldEq AccountingEngine.default := by
  intro c
  simp [heldOf, accountOf, AccountingEngine.default, alookup, disputedSum, Account.default]

lemma reachable_props {e : AccountingEngine} (h : Reachable e) :
    clientHasAccount e ∧ heldEq e := by
  obtain ⟨txs, htxs⟩ := h
  obtain ⟨e₁, happ, hchas₁, hheq₁, -⟩ := applyTxs_sound txs default_clientHas default_heldEq
  rw [htxs] at happ
  injection happ with h₁
  subst h₁
  exact ⟨hchas₁, hheq₁⟩

end TransactionsEngine

namespace TransactionsEngine

open AccountingEngine

lemma handle_locked_mono {e e' : AccountingEngine} {tr : Transaction} {r : Bool}
    {c : CustomerId} (h : e.handle_transaction tr = some (r, e'))
    (hl : e.lockedOf c = true) : e'.lockedOf c = true := by
  have hsome : (alookup c e.accounts).isSome = true := by
    cases hc : alookup c e.accounts with
    | none =>
        exfalso
        simp [lockedOf, accountOf, hc, Account.default] at hl
    | some acc => rfl
  cases tr with
  | Deposit client tx amount =>
      simp only [handle_transaction] at h
      by_cases hlk : (e.accountOf client).locked = true
      · rw [deposit_locked hlk] at h
        simp only [Option.some.injEq, Prod.mk.injEq] at h
        obtain ⟨-, he⟩ := h
        subst he
        simpa [lockedOf, accountOf, getD_alookup_entryOrDefault] using hl
      · rw [Bool.not_eq_true] at hlk
        cases htx : alookup tx e.transactions with
        | some s =>
            rw [deposit_dup hlk htx] at h
            simp only [Option.some.injEq, Prod.mk.injEq] at h
            obtain ⟨-, he⟩ := h
            subst he
            simpa [lockedOf, accountOf, getD_alookup_entryOrDefault] using hl
        | none =>
            rw [deposit_ok hlk htx] at h
            simp only [Option.some.injEq, Prod.mk.injEq] at h
            obtain ⟨-, he⟩ := h
            subst he
            simp only [lockedOf, accountOf] at hl ⊢
            rw [accountOf_setKey_entry]
            by_cases hc : c = client
            · subst hc
              simpa using hl
            · simpa [hc] using hl
  | Withdrawal client tx amount =>
      simp only [handle_transaction] at h
      by_cases hlk : (e.accountOf client).locked = true
      · rw [withdraw_stopped (Or.inl hlk)] at h
        simp only [Option.some.injEq, Prod.mk.injEq] at h
        obtain ⟨-, he⟩ := h
        subst he
        simpa [lockedOf, accountOf, getD_alookup_entryOrDefault] using hl
      · rw [Bool.not_eq_true] at hlk
        by_cases hav : (e.accountOf client).available < amount
        · rw [withdraw_stopped (Or.inr hav)] at h
          simp only [Option.some.injEq, Prod.mk.injEq] at h
          obtain ⟨-, he⟩ := h
          subst he
          simpa [lockedOf, accountOf, getD_alookup_entryOrDefault] using hl
        · cases htx : alookup tx e.transactions with
          | some s =>
              rw [withdraw_dup hlk hav htx] at h
              simp only [Option.some.injEq, Prod.mk.injEq] at h
              obtain ⟨-, he⟩ := h
              subst he
              simpa [lockedOf, accountOf, getD_alookup_entryOrDefault] using hl
          | none =>
              rw [withdraw_ok hlk hav htx] at h
              simp only [Option.some.injEq, Prod.mk.injEq] at h
              obtain ⟨-, he⟩ := h
              subst he
              simp only [lockedOf, accountOf] at hl ⊢
              rw [accountOf_setKey_entry]
              by_cases hc : c = client
              · subst hc
                simpa using hl
              · simpa [hc] using hl
  | Dispute client tx =>
      simp only [handle_transaction] at h
      cases htx : alookup tx e.transactions with
      | none =>
          rw [dispute_no_tx htx] at h
          simp only [Option.some.injEq, Prod.mk.injEq] at h
          obtain ⟨-, he⟩ := h
          subst he
          exact hl
      | some s =>
          cases s with
          | Deposited dc a =>
              by_cases hdc : dc = client
              · subst hdc
                cases haccl : alookup dc e.accounts with
                | none =>
                    rw [dispute_panic htx haccl] at h
                    cases h
                | some account =>
                    rw [dispute_ok htx haccl] at h
                    simp only [Option.some.injEq, Prod.mk.injEq] at h
                    obtain ⟨-, he⟩ := h
                    subst he
                    simp only [lockedOf, accountOf] at hl ⊢
                    rw [accountOf_setKey]
                    by_cases hc : c = dc
                    · subst hc
                      rw [haccl] at hl
                      simpa using hl
                    · simpa [hc] using hl
              · rw [dispute_mismatch htx hdc] at h
                simp only [Option.some.injEq, Prod.mk.injEq] at h
                obtain ⟨-, he⟩ := h
                subst he
                exact hl
          | Withdrawed =>
              rw [dispute_not_deposited htx (fun c₁ a h₀ => TransactionState.noConfusion h₀)] at h
              simp only [Option.some.injEq, Prod.mk.injEq] at h
              obtain ⟨-, he⟩ := h
              subst he
              exact hl
          | Disputed dc a =>
              rw [dispute_not_deposited htx (fun c₁ a₁ h₀ => TransactionState.noConfusion h₀)] at h
              simp only [Option.some.injEq, Prod.mk.injEq] at h
              obtain ⟨-, he⟩ := h
              subst he
              exact hl
          | Resolved =>
              rw [dispute_not_deposited htx (fun c₁ a h₀ => TransactionState.noConfusion h₀)] at h
              simp only [Option.some.injEq, Prod.mk.injEq] at h
              obtain ⟨-, he⟩ := h
              subst he
              exact hl
          | ChargedBack =>
              rw [dispute_not_deposited htx (fun c₁ a h₀ => TransactionState.noConfusion h₀)] at h
              simp only [Option.some.injEq, Prod.mk.injEq] at h
              obtain ⟨-, he⟩ := h
              subst he
              exact hl
  | Resolve client tx =>
      simp only [handle_transaction] at h
      cases htx : alookup tx e.transactions with
      | none =>
          rw [resolve_no_tx htx] at h
          simp only [Option.some.injEq, Prod.mk.injEq] at h
          obtain ⟨-, he⟩ := h
          subst he
          exact hl
      | some s =>
          cases s with
          | Disputed dc a =>
              by_cases hdc : dc = client
              · subst hdc
                cases haccl : alookup dc e.accounts with
                | none =>
                    rw [resolve_panic htx haccl] at h
                    cases h
                | some account =>
                    rw [resolve_ok htx haccl] at h
                    simp only [Option.some.injEq, Prod.mk.injEq] at h
                    obtain ⟨-, he⟩ := h
                    subst he
                    simp only [lockedOf, accountOf] at hl ⊢
                    rw [accountOf_setKey]
                    by_cases hc : c = dc
                    · subst hc
                      rw [haccl] at hl
                      simpa using hl
                    · simpa [hc] using hl
              · rw [resolve_mismatch htx hdc] at h
                simp only [Option.some.injEq, Prod.mk.injEq] at h
                obtain ⟨-, he⟩ := h
                subst he
                exact hl
          | Deposited dc a =>
              rw [resolve_not_disputed htx (fun c₁ a₁ h₀ => TransactionState.noConfusion h₀)] at h
              simp only [Option.some.injEq, Prod.mk.injEq] at h
              obtain ⟨-, he⟩ := h
              subst he
              exact hl
          | Withdrawed =>
              rw [resolve_not_disputed htx (fun c₁ a h₀ => TransactionState.noConfusion h₀)] at h
              simp only [Option.some.injEq, Prod.mk.injEq] at h
              obtain ⟨-, he⟩ := h
              subst he
              exact hl
          | Resolved =>
              rw [resolve_not_disputed htx (fun c₁ a h₀ => TransactionState.noConfusion h₀)] at h
              simp only [Option.some.injEq, Prod.mk.injEq] at h
              obtain ⟨-, he⟩ := h
              subst he
              exact hl
          | ChargedBack =>
              rw [resolve_not_disputed htx (fun c₁ a h₀ => TransactionState.noConfusion h₀)] at h
              simp only [Option.some.injEq, Prod.mk.injEq] at h
              obtain ⟨-, he⟩ := h
              subst he
              exact hl
  | Chargeback client tx =>
      simp only [handle_transaction] at h
      cases htx : alookup tx e.transactions with
      | none =>
          rw [chargeback_no_tx htx] at h
          simp only [Option.some.injEq, Prod.mk.injEq] at h
          obtain ⟨-, he⟩ := h
          subst he
          exact hl
      | some s =>
          cases s with
          | Disputed dc a =>
              by_cases hdc : dc = client
              · subst hdc
                cases haccl : alookup dc e.accounts with
                | none =>
                    rw [chargeback_panic htx haccl] at h
                    cases h
                | some account =>
                    rw [chargeback_ok htx haccl] at h
                    simp only [Option.some.injEq, Prod.mk.injEq] at h
                    obtain ⟨-, he⟩ := h
                    subst he
                    simp only [lockedOf, accountOf] at hl ⊢
                    rw [accountOf_setKey]
                    by_cases hc : c = dc
                    · subst hc
                      simp
                    · simpa [hc] using hl
              · rw [chargeback_mismatch htx hdc] at h
                simp only [Option.some.injEq, Prod.mk.injEq] at h
                obtain ⟨-, he⟩ := h
                subst he
                exact hl
          | Deposited dc a =>
              rw [chargeback_not_disputed htx (fun c₁ a₁ h₀ => TransactionState.noConfusion h₀)] at h
              simp only [Option.some.injEq, Prod.mk.injEq] at h
              obtain ⟨-, he⟩ := h
              subst he
              exact hl
          | Withdrawed =>
              rw [chargeback_not_disputed htx (fun c₁ a h₀ => TransactionState.noConfusion h₀)] at h
              simp only [Option.some.injEq, Prod.mk.injEq] at h
              obtain ⟨-, he⟩ := h
              subst he
              exact hl
          | Resolved =>
              rw [chargeback_not_disputed htx (fun c₁ a h₀ => TransactionState.noConfusion h₀)] at h
              simp only [Option.some.injEq, Prod.mk.injEq] at h
              obtain ⟨-, he⟩ := h
              subst he
              exact hl
          | ChargedBack =>
              rw [chargeback_not_disputed htx (fun c₁ a h₀ => TransactionState.noConfusion h₀)] at h
              simp only [Option.some.injEq, Prod.mk.injEq] at h
              obtain ⟨-, he⟩ := h
              subst he
              exact hl

lemma applyTxs_locked_mono {txs : List Transaction} :
    ∀ {e e' : AccountingEngine} {c : CustomerId},
      applyTxs e txs = some e' → e.lockedOf c = true → e'.lockedOf c = true := by
  induction txs with
  | nil =>
      intro e e' c happ hl
      simp only [applyTxs, Option.some.injEq] at happ
      subst happ
      exact hl
  | cons tr rest ih =>
      intro e e' c happ hl
      cases hh : e.handle_transaction tr with
      | none => simp [applyTxs, hh] at happ
      | some p =>
          obtain ⟨r, e₁⟩ := p
          rw [show applyTxs e (tr :: rest) = applyTxs e₁ rest by simp [applyTxs, hh]] at happ
          exact ih happ (handle_locked_mono hh hl)

end TransactionsEngine

namespace TransactionsEngine

open AccountingEngine

lemma handle_frame {e e' : AccountingEngine} {tr : Transaction} {r : Bool}
    {c : CustomerId} {t : TransactionId} {a : Rat}
    (hcl : txClient tr ≠ c) (h : e.handle_transaction tr = some (r, e'))
    (hrec : alookup t e.transactions = some (TransactionState.Disputed c a)) :
    e'.availOf c = e.availOf c ∧ e'.heldOf c = e.heldOf c ∧
      alookup t e'.transactions = some (TransactionState.Disputed c a) := by
  cases tr with
  | Deposit client tx amount =>
      have hcc : client ≠ c := hcl
      have hc' : ¬ c = client := fun hh => hcc hh.symm
      simp only [handle_transaction] at h
      by_cases hlk : (e.accountOf client).locked = true
      · rw [deposit_locked hlk] at h
        simp only [Option.some.injEq, Prod.mk.injEq] at h
        obtain ⟨-, he⟩ := h
        subst he
        exact ⟨by simp [availOf, accountOf, getD_alookup_entryOrDefault],
          by simp [heldOf, accountOf, getD_alookup_entryOrDefault], hrec⟩
      · rw [Bool.not_eq_true] at hlk
        cases htx : alookup tx e.transactions with
        | some s =>
            rw [deposit_dup hlk htx] at h
            simp only [Option.some.injEq, Prod.mk.injEq] at h
            obtain ⟨-, he⟩ := h
            subst he
            exact ⟨by simp [availOf, accountOf, getD_alookup_entryOrDefault],
              by simp [heldOf, accountOf, getD_alookup_entryOrDefault], hrec⟩
        | none =>
            rw [deposit_ok hlk htx] at h
            simp only [Option.some.injEq, Prod.mk.injEq] at h
            obtain ⟨-, he⟩ := h
            subst he
            have htne : tx ≠ t := by
              intro hh
              subst hh
              rw [htx] at hrec
              cases hrec
            refine ⟨?_, ?_, ?_⟩
            · simp [availOf, accountOf, accountOf_setKey_entry, hc']
            · simp [heldOf, accountOf, accountOf_setKey_entry, hc']
            · show alookup t ((tx, TransactionState.Deposited client amount) ::
                  e.transactions) = some (TransactionState.Disputed c a)
              rw [alookup_cons_ne htne]
              exact hrec
  | Withdrawal client tx amount =>
      have hcc : client ≠ c := hcl
      have hc' : ¬ c = client := fun hh => hcc hh.symm
      simp only [handle_transaction] at h
      by_cases hlk : (e.accountOf client).locked = true
      · rw [withdraw_stopped (Or.inl hlk)] at h
        simp only [Option.some.injEq, Prod.mk.injEq] at h
        obtain ⟨-, he⟩ := h
        subst he
        exact ⟨by simp [availOf, accountOf, getD_alookup_entryOrDefault],
          by simp [heldOf, accountOf, getD_alookup_entryOrDefault], hrec⟩
      · rw [Bool.not_eq_true] at hlk
        by_cases hav : (e.accountOf client).available < amount
        · rw [withdraw_stopped (Or.inr hav)] at h
          simp only [Option.some.injEq, Prod.mk.injEq] at h
          obtain ⟨-, he⟩ := h
          subst he
          exact ⟨by simp [availOf, accountOf, getD_alookup_entryOrDefault],
            by simp [heldOf, accountOf, getD_alookup_entryOrDefault], hrec⟩
        · cases htx : alookup tx e.transactions with
          | some s =>
              rw [withdraw_dup hlk hav htx] at h
              simp only [Option.some.injEq, Prod.mk.injEq] at h
              obtain ⟨-, he⟩ := h
              subst he
              exact ⟨by simp [availOf, accountOf, getD_alookup_entryOrDefault],
                by simp [heldOf, accountOf, getD_alookup_entryOrDefault], hrec⟩
          | none =>
              rw [withdraw_ok hlk hav htx] at h
              simp only [Option.some.injEq, Prod.mk.injEq] at h
              obtain ⟨-, he⟩ := h
              subst he
              have htne : tx ≠ t := by
                intro hh
                subst hh
                rw [htx] at hrec
                cases hrec
              refine ⟨?_, ?_, ?_⟩
              · simp [availOf, accountOf, accountOf_setKey_entry, hc']
              · simp [heldOf, accountOf, accountOf_setKey_entry, hc']
              · show alookup t ((tx, TransactionState.Withdrawed) ::
                    e.transactions) = some (TransactionState.Disputed c a)
                rw [alookup_cons_ne htne]
                exact hrec
  | Dispute client tx =>
      have hcc : client ≠ c := hcl
      have hc' : ¬ c = client := fun hh => hcc hh.symm
      simp only [handle_transaction] at h
      cases htx : alookup tx e.transactions with
      | none =>
          rw [dispute_no_tx htx] at h
          simp only [Option.some.injEq, Prod.mk.injEq] at h
          obtain ⟨-, he⟩ := h
          subst he
          exact ⟨rfl, rfl, hrec⟩
      | some s =>
          cases s with
          | Deposited dc a₁ =>
              by_cases hdc : dc = client
              · subst hdc
                cases haccl : alookup dc e.accounts with
                | none =>
                    rw [dispute_panic htx haccl] at h
                    cases h
                | some account =>
                    rw [dispute_ok htx haccl] at h
                    simp only [Option.some.injEq, Prod.mk.injEq] at h
                    obtain ⟨-, he⟩ := h
                    subst he
                    have htne : t ≠ tx := by
                      intro hh
                      subst hh
                      rw [htx] at hrec
                      cases hrec
                    refine ⟨?_, ?_, ?_⟩
                    · simp [availOf, accountOf, accountOf_setKey, hc']
                    · simp [heldOf, accountOf, accountOf_setKey, hc']
                    · show alookup t (setKey tx (TransactionState.Disputed dc a₁)
                          e.transactions) = some (TransactionState.Disputed c a)
                      rw [alookup_setKey_ne htne]
                      exact hrec
              · rw [dispute_mismatch htx hdc] at h
                simp only [Option.some.injEq, Prod.mk.injEq] at h
                obtain ⟨-, he⟩ := h
                subst he
                exact ⟨rfl, rfl, hrec⟩
          | Withdrawed =>
              rw [dispute_not_deposited htx (fun c₁ a₂ h₀ => TransactionState.noConfusion h₀)] at h
              simp only [Option.some.injEq, Prod.mk.injEq] at h
              obtain ⟨-, he⟩ := h
              subst he
              exact ⟨rfl, rfl, hrec⟩
          | Disputed dc a₁ =>
              rw [dispute_not_deposited htx (fun c₁ a₂ h₀ => TransactionState.noConfusion h₀)] at h
              simp only [Option.some.injEq, Prod.mk.injEq] at h
              obtain ⟨-, he⟩ := h
              subst he
              exact ⟨rfl, rfl, hrec⟩
          | Resolved =>
              rw [dispute_not_deposited htx (fun c₁ a₂ h₀ => TransactionState.noConfusion h₀)] at h
              simp only [Option.some.injEq, Prod.mk.injEq] at h
              obtain ⟨-, he⟩ := h
              subst he
              exact ⟨rfl, rfl, hrec⟩
          | ChargedBack =>
              rw [dispute_not_deposited htx (fun c₁ a₂ h₀ => TransactionState.noConfusion h₀)] at h
              simp only [Option.some.injEq, Prod.mk.injEq] at h
              obtain ⟨-, he⟩ := h
              subst he
              exact ⟨rfl, rfl, hrec⟩
  | Resolve client tx =>
      have hcc : client ≠ c := hcl
      have hc' : ¬ c = client := fun hh => hcc hh.symm
      simp only [handle_transaction] at h
      cases htx : alookup tx e.transactions with
      | none =>
          rw [resolve_no_tx htx] at h
          simp only [Option.some.injEq, Prod.mk.injEq] at h
          obtain ⟨-, he⟩ := h
          subst he
          exact ⟨rfl, rfl, hrec⟩
      | some s =>
          cases s with
          | Disputed dc a₁ =>
              by_cases hdc : dc = client
              · subst hdc
                cases haccl : alookup dc e.accounts with
                | none =>
                    rw [resolve_panic htx haccl] at h
                    cases h
                | some account =>
                    rw [resolve_ok htx haccl] at h
                    simp only [Option.some.injEq, Prod.mk.injEq] at h
                    obtain ⟨-, he⟩ := h
                    subst he
                    have htne : t ≠ tx := by
                      intro hh
                      subst hh
                      have := hrec.symm.trans htx
                      simp only [Option.some.injEq, TransactionState.Disputed.injEq] at this
                      exact hcc this.1.symm
                    refine ⟨?_, ?_, ?_⟩
                    · simp [availOf, accountOf, accountOf_setKey, hc']
                    · simp [heldOf, accountOf, accountOf_setKey, hc']
                    · show alookup t (setKey tx TransactionState.Resolved
                          e.transactions) = some (TransactionState.Disputed c a)
                      rw [alookup_setKey_ne htne]
                      exact hrec
              · rw [resolve_mismatch htx hdc] at h
                simp only [Option.some.injEq, Prod.mk.injEq] at h
                obtain ⟨-, he⟩ := h
                subst he
                exact ⟨rfl, rfl, hrec⟩
          | Deposited dc a₁ =>
              rw [resolve_not_disputed htx (fun c₁ a₂ h₀ => TransactionState.noConfusion h₀)] at h
              simp only [Option.some.injEq, Prod.mk.injEq] at h
              obtain ⟨-, he⟩ := h
              subst he
              exact ⟨rfl, rfl, hrec⟩
          | Withdrawed =>
              rw [resolve_not_disputed htx (fun c₁ a₂ h₀ => TransactionState.noConfusion h₀)] at h
              simp only [Option.some.injEq, Prod.mk.injEq] at h
              obtain ⟨-, he⟩ := h
              subst he
              exact ⟨rfl, rfl, hrec⟩
          | Resolved =>
              rw [resolve_not_disputed htx (fun c₁ a₂ h₀ => TransactionState.noConfusion h₀)] at h
              simp only [Option.some.injEq, Prod.mk.injEq] at h
              obtain ⟨-, he⟩ := h
              subst he
              exact ⟨rfl, rfl, hrec⟩
          | ChargedBack =>
              rw [resolve_not_disputed htx (fun c₁ a₂ h₀ => TransactionState.noConfusion h₀)] at h
              simp only [Option.some.injEq, Prod.mk.injEq] at h
              obtain ⟨-, he⟩ := h
              subst he
              exact ⟨rfl, rfl, hrec⟩
  | Chargeback client tx =>
      have hcc : client ≠ c := hcl
      have hc' : ¬ c = client := fun hh => hcc hh.symm
      simp only [handle_transaction] at h
      cases htx : alookup tx e.transactions with
      | none =>
          rw [chargeback_no_tx htx] at h
          simp only [Option.some.injEq, Prod.mk.injEq] at h
          obtain ⟨-, he⟩ := h
          subst he
          exact ⟨rfl, rfl, hrec⟩
      | some s =>
          cases s with
          | Disputed dc a₁ =>
              by_cases hdc : dc = client
              · subst hdc
                cases haccl : alookup dc e.accounts with
                | none =>
                    rw [chargeback_panic htx haccl] at h
                    cases h
                | some account =>
                    rw [chargeback_ok htx haccl] at h
                    simp only [Option.some.injEq, Prod.mk.injEq] at h
                    obtain ⟨-, he⟩ := h
                    subst he
                    have htne : t ≠ tx := by
                      intro hh
                      subst hh
                      have := hrec.symm.trans htx
                      simp only [Option.some.injEq, TransactionState.Disputed.injEq] at this
                      exact hcc this.1.symm
                    refine ⟨?_, ?_, ?_⟩
                    · simp [availOf, accountOf, accountOf_setKey, hc']
                    · simp [heldOf, accountOf, accountOf_setKey, hc']
                    · show alookup t (setKey tx TransactionState.ChargedBack
                          e.transactions) = some (TransactionState.Disputed c a)
                      rw [alookup_setKey_ne htne]
                      exact hrec
              · rw [chargeback_mismatch htx hdc] at h
                simp only [Option.some.injEq, Prod.mk.injEq] at h
                obtain ⟨-, he⟩ := h
                subst he
                exact ⟨rfl, rfl, hrec⟩
          | Deposited dc a₁ =>
              rw [chargeback_not_disputed htx (fun c₁ a₂ h₀ => TransactionState.noConfusion h₀)] at h
              simp only [Option.some.injEq, Prod.mk.injEq] at h
              obtain ⟨-, he⟩ := h
              subst he
              exact ⟨rfl, rfl, hrec⟩
          | Withdrawed =>
              rw [chargeback_not_disputed htx (fun c₁ a₂ h₀ => TransactionState.noConfusion h₀)] at h
              simp only [Option.some.injEq, Prod.mk.injEq] at h
              obtain ⟨-, he⟩ := h
              subst he
              exact ⟨rfl, rfl, hrec⟩
          | Resolved =>
              rw [chargeback_not_disputed htx (fun c₁ a₂ h₀ => TransactionState.noConfusion h₀)] at h
              simp only [Option.some.injEq, Prod.mk.injEq] at h
              obtain ⟨-, he⟩ := h
              subst he
              exact ⟨rfl, rfl, hrec⟩
          | ChargedBack =>
              rw [chargeback_not_disputed htx (fun c₁ a₂ h₀ => TransactionState.noConfusion h₀)] at h
              simp only [Option.some.injEq, Prod.mk.injEq] at h
              obtain ⟨-, he⟩ := h
              subst he
              exact ⟨rfl, rfl, hrec⟩

lemma applyTxs_frame {mid : List Transaction} :
    ∀ {e e' : AccountingEngine} {c : CustomerId} {t : TransactionId} {a : Rat},
      (∀ tr ∈ mid, txClient tr ≠ c) → applyTxs e mid = some e' →
      alookup t e.transactions = some (TransactionState.Disputed c a) →
      e'.availOf c = e.availOf c ∧ e'.heldOf c = e.heldOf c ∧
        alookup t e'.transactions = some (TransactionState.Disputed c a) := by
  induction mid with
  | nil =>
      intro e e' c t a hmid happ hrec
      simp only [applyTxs, Option.some.injEq] at happ
      subst happ
      exact ⟨rfl, rfl, hrec⟩
  | cons tr rest ih =>
      intro e e' c t a hmid happ hrec
      cases hh : e.handle_transaction tr with
      | none => simp [applyTxs, hh] at happ
      | some p =>
          obtain ⟨r, e₁⟩ := p
          rw [show applyTxs e (tr :: rest) = applyTxs e₁ rest by simp [applyTxs, hh]] at happ
          obtain ⟨ha₁, hh₁, hrec₁⟩ :=
            handle_frame (hmid tr (List.mem_cons_self _ _)) hh hrec
          obtain ⟨ha₂, hh₂, hrec₂⟩ :=
            ih (fun tr₁ ht₁ => hmid tr₁ (List.mem_cons_of_mem _ ht₁)) happ hrec₁
          exact ⟨ha₂.trans ha₁, hh₂.trans hh₁, hrec₂⟩

end TransactionsEngine

namespace TransactionsEngine

open AccountingEngine

lemma dispute_inv {e e₁ : AccountingEngine} {client : CustomerId} {tx : TransactionId}
    (h : e.dispute client tx = some (true, e₁)) :
    ∃ a account, alookup tx e.transactions = some (TransactionState.Deposited client a) ∧
      alookup client e.accounts = some account ∧
      e₁ = ⟨setKey client
          { account with held := account.held + a, available := account.available - a }
          e.accounts,
        setKey tx (TransactionState.Disputed client a) e.transactions⟩ := by
  cases htx : alookup tx e.transactions with
  | none => rw [dispute_no_tx htx] at h; simp at h
  | some s =>
      cases s with
      | Deposited dc a =>
          by_cases hdc : dc = client
          · subst hdc
            cases haccl : alookup dc e.accounts with
            | none => rw [dispute_panic htx haccl] at h; cases h
            | some account =>
                rw [dispute_ok htx haccl] at h
                simp only [Option.some.injEq, Prod.mk.injEq] at h
                exact ⟨a, account, rfl, rfl, h.2.symm⟩
          · rw [dispute_mismatch htx hdc] at h; simp at h
      | Withdrawed =>
          rw [dispute_not_deposited htx (fun c a h₀ => TransactionState.noConfusion h₀)] at h
          simp at h
      | Disputed dc a =>
          rw [dispute_not_deposited htx (fun c a₁ h₀ => TransactionState.noConfusion h₀)] at h
          simp at h
      | Resolved =>
          rw [dispute_not_deposited htx (fun c a h₀ => TransactionState.noConfusion h₀)] at h
          simp at h
      | ChargedBack =>
          rw [dispute_not_deposited htx (fun c a h₀ => TransactionState.noConfusion h₀)] at h
          simp at h

lemma resolve_inv {e e₁ : AccountingEngine} {client : CustomerId} {tx : TransactionId}
    (h : e.resolve client tx = some (true, e₁)) :
    ∃ a account, alookup tx e.transactions = some (TransactionState.Disputed client a) ∧
      alookup client e.accounts = some account ∧
      e₁ = ⟨setKey client
          { account with held := account.held - a, available := account.available + a }
          e.accounts,
        setKey tx TransactionState.Resolved e.transactions⟩ := by
  cases htx : alookup tx e.transactions with
  | none => rw [resolve_no_tx htx] at h; simp at h
  | some s =>
      cases s with
      | Disputed dc a =>
          by_cases hdc : dc = client
          · subst hdc
            cases haccl : alookup dc e.accounts with
            | none => rw [resolve_panic htx haccl] at h; cases h
            | some account =>
                rw [resolve_ok htx haccl] at h
                simp only [Option.some.injEq, Prod.mk.injEq] at h
                exact ⟨a, account, rfl, rfl, h.2.symm⟩
          · rw [resolve_mismatch htx hdc] at h; simp at h
      | Deposited dc a =>
          rw [resolve_not_disputed htx (fun c a₁ h₀ => TransactionState.noConfusion h₀)] at h
          simp at h
      | Withdrawed =>
          rw [resolve_not_disputed htx (fun c a h₀ => TransactionState.noConfusion h₀)] at h
          simp at h
      | Resolved =>
          rw [resolve_not_disputed htx (fun c a h₀ => TransactionState.noConfusion h₀)] at h
          simp at h
      | ChargedBack =>
          rw [resolve_not_disputed htx (fun c a h₀ => TransactionState.noConfusion h₀)] at h
          simp at h

end TransactionsEngine

namespace TransactionsEngine

open AccountingEngine

/-- C1: for every sequence of transactions applied through
`handle_transaction` from the default engine, every `AccountState`
record returned by `account_states` satisfies `total = available + held`;
`total` is derived at read time from the stored `available` and `held`
fields (the `Account` record stores no total). -/
theorem c1_snapshot_total_derived (txs : List Transaction) (e : AccountingEngine)
    (h : applyTxs AccountingEngine.default txs = some e) :
    ∀ st ∈ e.account_states, st.total = st.available + st.held := by
  intro st hst
  simp only [account_states, List.mem_map] at hst
  obtain ⟨p, -, rfl⟩ := hst
  rfl

/-- C1 witness: the snapshot record produced after a single deposit
satisfies the derived-total equation. -/
theorem c1_snapshot_total_witness :
    AccountState.total ⟨1, 1, 0, 1, false⟩ =
      AccountState.available ⟨1, 1, 0, 1, false⟩ + AccountState.held ⟨1, 1, 0, 1, false⟩ :=
  c1_snapshot_total_derived [Transaction.Deposit 1 1 1] eDep
    (by simp [applyTxs, handle_transaction, AccountingEngine.deposit, accountOf,
      entryOrDefault, alookup, setKey, AccountingEngine.default, Account.default, eDep])
    ⟨1, 1, 0, 1, false⟩
    (by simp [account_states, eDep])

/-- C8: once a transaction id is recorded in a terminal state (`Resolved`
or `ChargedBack`), any `Dispute`, `Resolve`, or `Chargeback` on that id,
by any client, returns false and leaves the engine (its transaction
record for that id and every account) entirely unchanged; in particular a
second resolve or chargeback of the same id is rejected. -/
theorem c8_terminal_states_reject (e : AccountingEngine) (client : CustomerId)
    (tx : TransactionId)
    (h : alookup tx e.transactions = some TransactionState.Resolved ∨
      alookup tx e.transactions = some TransactionState.ChargedBack) :
    e.dispute client tx = some (false, e) ∧
      e.resolve client tx = some (false, e) ∧
      e.chargeback client tx = some (false, e) := by
  rcases h with h | h
  · exact ⟨dispute_not_deposited h (fun c a h₀ => TransactionState.noConfusion h₀),
      resolve_not_disputed h (fun c a h₀ => TransactionState.noConfusion h₀),
      chargeback_not_disputed h (fun c a h₀ => TransactionState.noConfusion h₀)⟩
  · exact ⟨dispute_not_deposited h (fun c a h₀ => TransactionState.noConfusion h₀),
      resolve_not_disputed h (fun c a h₀ => TransactionState.noConfusion h₀),
      chargeback_not_disputed h (fun c a h₀ => TransactionState.noConfusion h₀)⟩

/-- C8 witness: on the engine where transaction 1 is `Resolved`, a second
dispute, resolve, or chargeback is rejected and changes nothing. -/
theorem c8_terminal_states_witness :
    eTerm.dispute 1 1 = some (false, eTerm) ∧
      eTerm.resolve 1 1 = some (false, eTerm) ∧
      eTerm.chargeback 1 1 = some (false, eTerm) :=
  c8_terminal_states_reject eTerm 1 1 (Or.inl (by simp [eTerm, alookup]))

/-- C10: every transaction sequence applied from the default engine
succeeds: `handle_transaction` always returns a boolean and never hits
the `expect("Account must exist ...")` panics, because in every reachable
state each `Deposited` or `Disputed` record names a client with an entry
in the accounts map. -/
theorem c10_total_no_panics (txs : List Transaction) :
    ∃ e, applyTxs AccountingEngine.default txs = some e ∧ clientHasAccount e := by
  obtain ⟨e₁, happ, hchas₁, -, -⟩ :=
    applyTxs_sound txs default_clientHas default_heldEq
  exact ⟨e₁, happ, hchas₁⟩

end TransactionsEngine

namespace TransactionsEngine

open AccountingEngine

/-- C3: whenever a transaction id already has a recorded state, a deposit
or withdrawal reusing that id returns false regardless of the account's
lock state, the recorded state for that id is unchanged, and every
existing account keeps its binding (so its available, held, and locked
values) unchanged: first writer wins. -/
theorem c3_duplicate_tx_id_rejected (e : AccountingEngine) (client : CustomerId)
    (tx : TransactionId) (amount : Rat)
    (h : (alookup tx e.transactions).isSome = true) :
    (∃ e₁, e.deposit client tx amount = some (false, e₁) ∧
        alookup tx e₁.transactions = alookup tx e.transactions ∧
        ∀ c acc, alookup c e.accounts = some acc → alookup c e₁.accounts = some acc) ∧
      (∃ e₁, e.withdraw client tx amount = some (false, e₁) ∧
        alookup tx e₁.transactions = alookup tx e.transactions ∧
        ∀ c acc, alookup c e.accounts = some acc → alookup c e₁.accounts = some acc) := by
  obtain ⟨s, hs⟩ := Option.isSome_iff_exists.mp h
  constructor
  · by_cases hl : (e.accountOf client).locked = true
    · exact ⟨_, deposit_locked hl, rfl,
        fun c acc hc => alookup_entryOrDefault_of_some hc⟩
    · rw [Bool.not_eq_true] at hl
      exact ⟨_, deposit_dup hl hs, rfl,
        fun c acc hc => alookup_entryOrDefault_of_some hc⟩
  · by_cases hl : (e.accountOf client).locked = true
    · exact ⟨_, withdraw_stopped (Or.inl hl), rfl,
        fun c acc hc => alookup_entryOrDefault_of_some hc⟩
    · rw [Bool.not_eq_true] at hl
      by_cases hav : (e.accountOf client).available < amount
      · exact ⟨_, withdraw_stopped (Or.inr hav), rfl,
          fun c acc hc => alookup_entryOrDefault_of_some hc⟩
      · exact ⟨_, withdraw_dup hl hav hs, rfl,
          fun c acc hc => alookup_entryOrDefault_of_some hc⟩

/-- C3 witness: on a locked account whose transaction id 1 is already
recorded, a deposit and a withdrawal reusing id 1 are both rejected
without touching the record or any existing account. -/
theorem c3_duplicate_tx_id_witness :
    (∃ e₁, eLock.deposit 1 1 5 = some (false, e₁) ∧
        alookup 1 e₁.transactions = alookup 1 eLock.transactions ∧
        ∀ c acc, alookup c eLock.accounts = some acc → alookup c e₁.accounts = some acc) ∧
      (∃ e₁, eLock.withdraw 1 1 5 = some (false, e₁) ∧
        alookup 1 e₁.transactions = alookup 1 eLock.transactions ∧
        ∀ c acc, alookup c eLock.accounts = some acc → alookup c e₁.accounts = some acc) :=
  c3_duplicate_tx_id_rejected eLock 1 1 5 (by simp [eLock, alookup])

/-- C9: once an account is locked, it stays locked under every further
transaction sequence; every deposit and withdrawal for that client is
rejected; and dispute, resolve, and chargeback for that client still
succeed under their usual record-state preconditions. -/
theorem c9_locked_monotone_and_blocks (e : AccountingEngine) (c : CustomerId)
    (hl : e.lockedOf c = true) :
    (∀ txs e₁, applyTxs e txs = some e₁ → e₁.lockedOf c = true) ∧
      (∀ tx amount, ∃ e₁, e.deposit c tx amount = some (false, e₁)) ∧
      (∀ tx amount, ∃ e₁, e.withdraw c tx amount = some (false, e₁)) ∧
      (∀ tx a, alookup tx e.transactions = some (TransactionState.Deposited c a) →
        ∃ e₁, e.dispute c tx = some (true, e₁)) ∧
      (∀ tx a, alookup tx e.transactions = some (TransactionState.Disputed c a) →
        ∃ e₁, e.resolve c tx = some (true, e₁)) ∧
      (∀ tx a, alookup tx e.transactions = some (TransactionState.Disputed c a) →
        ∃ e₁, e.chargeback c tx = some (true, e₁)) := by
  have hlk : (e.accountOf c).locked = true := hl
  have haccl : alookup c e.accounts = some (e.accountOf c) := by
    cases hc : alookup c e.accounts with
    | none =>
        exfalso
        simp [lockedOf, accountOf, hc, Account.default] at hl
    | some acc => simp [accountOf, hc]
  refine ⟨fun txs e₁ happ => applyTxs_locked_mono happ hl, ?_, ?_, ?_, ?_, ?_⟩
  · intro tx amount
    exact ⟨_, deposit_locked hlk⟩
  · intro tx amount
    exact ⟨_, withdraw_stopped (Or.inl hlk)⟩
  · intro tx a h
    exact ⟨_, dispute_ok h haccl⟩
  · intro tx a h
    exact ⟨_, resolve_ok h haccl⟩
  · intro tx a h
    exact ⟨_, chargeback_ok h haccl⟩

/-- C9 witness: on the locked account of `eLock`, a fresh deposit is
rejected. -/
theorem c9_locked_witness : ∃ e₁, eLock.deposit 1 5 7 = some (false, e₁) :=
  (c9_locked_monotone_and_blocks eLock 1
    (by simp [lockedOf, accountOf, eLock, alookup])).2.1 5 7

end TransactionsEngine

namespace TransactionsEngine

open AccountingEngine

/-- C4: a withdrawal returns false exactly when the account is locked, or
its available balance (not its total) is strictly below the amount, or
the transaction id is already recorded; otherwise it returns true,
decreases available by exactly the amount, leaves held and locked
unchanged, and records `Withdrawed` (which carries no amount) for the
id. -/
theorem c4_withdraw_spec (e : AccountingEngine) (client : CustomerId) (tx : TransactionId)
    (amount : Rat) :
    ((e.withdraw client tx amount).map Prod.fst = some false ↔
      (e.lockedOf client = true ∨ e.availOf client < amount ∨
        (alookup tx e.transactions).isSome = true)) ∧
      (¬ (e.lockedOf client = true ∨ e.availOf client < amount ∨
          (alookup tx e.transactions).isSome = true) →
        ∃ e₁, e.withdraw client tx amount = some (true, e₁) ∧
          e₁.availOf client = e.availOf client - amount ∧
          e₁.heldOf client = e.heldOf client ∧
          e₁.lockedOf client = e.lockedOf client ∧
          alookup tx e₁.transactions = some TransactionState.Withdrawed) := by
  by_cases hl : (e.accountOf client).locked = true
  · constructor
    · rw [withdraw_stopped (Or.inl hl)]
      simp [lockedOf, hl]
    · intro hcond
      exact absurd (Or.inl hl) hcond
  · rw [Bool.not_eq_true] at hl
    by_cases hav : (e.accountOf client).available < amount
    · constructor
      · rw [withdraw_stopped (Or.inr hav)]
        simp [availOf, hav]
      · intro hcond
        exact absurd (Or.inr (Or.inl hav)) hcond
    · cases htx : alookup tx e.transactions with
      | some s =>
          constructor
          · rw [withdraw_dup hl hav htx]
            simp
          · intro hcond
            exact absurd (Or.inr (Or.inr rfl)) hcond
      | none =>
          constructor
          · rw [withdraw_ok hl hav htx]
            simp [lockedOf, availOf, hl, hav]
          · intro hcond
            refine ⟨_, withdraw_ok hl hav htx, ?_, ?_, ?_, ?_⟩
            · simp [availOf, accountOf, accountOf_setKey_entry]
            · simp [heldOf, accountOf, accountOf_setKey_entry]
            · simp [lockedOf, accountOf, accountOf_setKey_entry]
            · exact alookup_cons_self _ _ _

/-- C4 witness: on the engine with one deposit of 1, withdrawing 1 under
a fresh id succeeds with the stated effects. -/
theorem c4_withdraw_witness :
    ∃ e₁, eDep.withdraw 1 2 1 = some (true, e₁) ∧
      e₁.availOf 1 = eDep.availOf 1 - 1 ∧
      e₁.heldOf 1 = eDep.heldOf 1 ∧
      e₁.lockedOf 1 = eDep.lockedOf 1 ∧
      alookup 2 e₁.transactions = some TransactionState.Withdrawed :=
  (c4_withdraw_spec eDep 1 2 1).2
    (by simp [lockedOf, availOf, accountOf, eDep, alookup, Account.default])

/-- C5: on a reachable engine state, a dispute returns false (and changes
nothing) exactly when the id has no record, the record is not a deposit
(in particular a withdrawal-created id), or the recorded client differs;
the lock state never blocks it; on success it adds the deposited amount
to held, subtracts it from available, and moves the record to
`Disputed`. -/
theorem c5_dispute_spec (e : AccountingEngine) (client : CustomerId) (tx : TransactionId)
    (hre : Reachable e) :
    ((∀ a, alookup tx e.transactions ≠ some (TransactionState.Deposited client a)) →
      e.dispute client tx = some (false, e)) ∧
      (∀ a, alookup tx e.transactions = some (TransactionState.Deposited client a) →
        ∃ e₁, e.dispute client tx = some (true, e₁) ∧
          e₁.heldOf client = e.heldOf client + a ∧
          e₁.availOf client = e.availOf client - a ∧
          alookup tx e₁.transactions = some (TransactionState.Disputed client a)) := by
  obtain ⟨hchas, -⟩ := reachable_props hre
  constructor
  · intro hno
    cases htx : alookup tx e.transactions with
    | none => exact dispute_no_tx htx
    | some s =>
        cases s with
        | Deposited dc a =>
            by_cases hdc : dc = client
            · subst hdc
              exact absurd htx (hno a)
            · exact dispute_mismatch htx hdc
        | Withdrawed =>
            exact dispute_not_deposited htx (fun c a h₀ => TransactionState.noConfusion h₀)
        | Disputed dc a =>
            exact dispute_not_deposited htx (fun c a₁ h₀ => TransactionState.noConfusion h₀)
        | Resolved =>
            exact dispute_not_deposited htx (fun c a h₀ => TransactionState.noConfusion h₀)
        | ChargedBack =>
            exact dispute_not_deposited htx (fun c a h₀ => TransactionState.noConfusion h₀)
  · intro a htx
    obtain ⟨account, haccl⟩ :=
      Option.isSome_iff_exists.mp (hchas tx client a (Or.inl htx))
    refine ⟨_, dispute_ok htx haccl, ?_, ?_, ?_⟩
    · simp [heldOf, accountOf, accountOf_setKey, haccl]
    · simp [availOf, accountOf, accountOf_setKey, haccl]
    · exact alookup_setKey_self _ _ _

/-- C5 witness: disputing the recorded deposit of `eDep` succeeds with
the stated balance moves. -/
theorem c5_dispute_witness :
    ∃ e₁, eDep.dispute 1 1 = some (true, e₁) ∧
      e₁.heldOf 1 = eDep.heldOf 1 + 1 ∧
      e₁.availOf 1 = eDep.availOf 1 - 1 ∧
      alookup 1 e₁.transactions = some (TransactionState.Disputed 1 1) :=
  (c5_dispute_spec eDep 1 1
    ⟨[Transaction.Deposit 1 1 1],
      by simp [applyTxs, handle_transaction, AccountingEngine.deposit, accountOf,
        entryOrDefault, alookup, setKey, AccountingEngine.default, Account.default, eDep]⟩).2
    1 (by simp [eDep, alookup])

/-- C7: on a reachable engine state where the id is recorded as disputed
by this client, a chargeback returns true, removes exactly the disputed
amount from held, leaves available unchanged (the funds are not
returned), locks the account, and moves the record to `ChargedBack`. -/
theorem c7_chargeback_effect (e : AccountingEngine) (client : CustomerId)
    (tx : TransactionId) (a : Rat) (hre : Reachable e)
    (h : alookup tx e.transactions = some (TransactionState.Disputed client a)) :
    ∃ e₁, e.chargeback client tx = some (true, e₁) ∧
      e₁.heldOf client = e.heldOf client - a ∧
      e₁.availOf client = e.availOf client ∧
      e₁.lockedOf client = true ∧
      alookup tx e₁.transactions = some TransactionState.ChargedBack := by
  obtain ⟨hchas, -⟩ := reachable_props hre
  obtain ⟨account, haccl⟩ :=
    Option.isSome_iff_exists.mp (hchas tx client a (Or.inr h))
  refine ⟨_, chargeback_ok h haccl, ?_, ?_, ?_, ?_⟩
  · simp [heldOf, accountOf, accountOf_setKey, haccl]
  · simp [availOf, accountOf, accountOf_setKey, haccl]
  · simp [lockedOf, accountOf, accountOf_setKey]
  · exact alookup_setKey_self _ _ _

/-- C7 witness: charging back the disputed deposit of `eDisp` succeeds,
removes the held funds, keeps available at 0, and locks the account. -/
theorem c7_chargeback_witness :
    ∃ e₁, eDisp.chargeback 1 1 = some (true, e₁) ∧
      e₁.heldOf 1 = eDisp.heldOf 1 - 1 ∧
      e₁.availOf 1 = eDisp.availOf 1 ∧
      e₁.lockedOf 1 = true ∧
      alookup 1 e₁.transactions = some TransactionState.ChargedBack :=
  c7_chargeback_effect eDisp 1 1 1
    ⟨[Transaction.Deposit 1 1 1, Transaction.Dispute 1 1],
      by simp [applyTxs, handle_transaction, AccountingEngine.deposit,
        AccountingEngine.dispute, accountOf, entryOrDefault, alookup, setKey,
        AccountingEngine.default, Account.default, eDisp]⟩
    (by simp [eDisp, alookup])

end TransactionsEngine

namespace TransactionsEngine

open AccountingEngine

/-- C6: a successful dispute followed by a successful resolve of the same
id, with arbitrary intervening transactions that name other clients,
restores the account's available and held funds exactly to their values
immediately before the dispute (including when available went
negative). -/
theorem c6_dispute_resolve_restores (e e₁ e₂ e₃ : AccountingEngine)
    (client : CustomerId) (tx : TransactionId) (mid : List Transaction)
    (hd : e.dispute client tx = some (true, e₁))
    (hmid : ∀ tr ∈ mid, txClient tr ≠ client)
    (happ : applyTxs e₁ mid = some e₂)
    (hr : e₂.resolve client tx = some (true, e₃)) :
    e₃.availOf client = e.availOf client ∧ e₃.heldOf client = e.heldOf client := by
  obtain ⟨a, account, htx, haccl, he₁⟩ := dispute_inv hd
  obtain ⟨a₂, account₂, htx₂, haccl₂, he₃⟩ := resolve_inv hr
  have hrec₁ : alookup tx e₁.transactions = some (TransactionState.Disputed client a) := by
    rw [he₁]
    exact alookup_setKey_self _ _ _
  obtain ⟨ha₂, hh₂, hrec₂⟩ := applyTxs_frame hmid happ hrec₁
  have haa : a₂ = a := by
    have hcomp := hrec₂.symm.trans htx₂
    simp only [Option.some.injEq, TransactionState.Disputed.injEq] at hcomp
    exact hcomp.2.symm
  have hv₁ : e₁.availOf client = e.availOf client - a := by
    rw [he₁]
    simp [availOf, accountOf, accountOf_setKey, haccl]
  have hh₁ : e₁.heldOf client = e.heldOf client + a := by
    rw [he₁]
    simp [heldOf, accountOf, accountOf_setKey, haccl]
  have hv₃ : e₃.availOf client = e₂.availOf client + a₂ := by
    rw [he₃]
    simp [availOf, accountOf, accountOf_setKey, haccl₂]
  have hh₃ : e₃.heldOf client = e₂.heldOf client - a₂ := by
    rw [he₃]
    simp [heldOf, accountOf, accountOf_setKey, haccl₂]
  constructor
  · rw [hv₃, ha₂, hv₁, haa]
    ring
  · rw [hh₃, hh₂, hh₁, haa]
    ring

/-- C6 witness: dispute then resolve of the single deposit of `eDep`
(with no intervening transactions) lands back on its balances. -/
theorem c6_dispute_resolve_witness :
    eTerm.availOf 1 = eDep.availOf 1 ∧ eTerm.heldOf 1 = eDep.heldOf 1 :=
  c6_dispute_resolve_restores eDep eDisp eDisp eTerm 1 1 []
    (by simp [AccountingEngine.dispute, eDep, eDisp, alookup, setKey])
    (by simp)
    rfl
    (by simp [AccountingEngine.resolve, eDisp, eTerm, alookup, setKey])

/-- C2 counterexample: the engine accepts a deposit with a negative
amount, and disputing it drives the account's held funds negative, so
held is not nonnegative over all transaction sequences. -/
theorem c2_held_counterexample :
    applyTxs AccountingEngine.default
        [Transaction.Deposit 1 1 (-1), Transaction.Dispute 1 1] = some eNeg ∧
      eNeg.heldOf 1 < 0 := by
  constructor
  · norm_num [applyTxs, handle_transaction, AccountingEngine.deposit,
      AccountingEngine.dispute, accountOf, entryOrDefault, alookup, setKey,
      AccountingEngine.default, Account.default, eNeg]
  · norm_num [heldOf, accountOf, eNeg, alookup]

/-- C2 (amended): for every transaction sequence from the default engine
in which all deposit amounts are nonnegative, the held funds of every
account are never negative after any step; available may go negative
even then. -/
theorem c2_held_nonneg_amended :
    (∀ (txs : List Transaction) (e : AccountingEngine),
        (∀ t ∈ txs, ∀ c x a, t = Transaction.Deposit c x a → 0 ≤ a) →
        applyTxs AccountingEngine.default txs = some e →
        ∀ c, 0 ≤ e.heldOf c) ∧
      ∃ (txs : List Transaction) (e : AccountingEngine),
        (∀ t ∈ txs, ∀ c x a, t = Transaction.Deposit c x a → 0 ≤ a) ∧
        applyTxs AccountingEngine.default txs = some e ∧ e.availOf 1 < 0 := by
  constructor
  · intro txs e hamts happ c
    obtain ⟨e₁, happ₁, -, hheq₁, hNN₁⟩ :=
      applyTxs_sound txs default_clientHas default_heldEq
    rw [happ] at happ₁
    injection happ₁ with h₁
    subst h₁
    have hNNd : nonNegRecords AccountingEngine.default := by
      intro t c₁ a hm
      rcases hm with hm | hm <;> simp [AccountingEngine.default] at hm
    have hNN : nonNegRecords e := hNN₁ hNNd hamts
    rw [hheq₁ c]
    refine List.sum_nonneg ?_
    intro x hx
    simp only [List.mem_map] at hx
    obtain ⟨⟨t, s⟩, hps, rfl⟩ := hx
    cases s with
    | Disputed c₁ a =>
        by_cases hc₁ : c₁ = c
        · simp only [heldContrib, if_pos hc₁]
          exact hNN t c₁ a (Or.inr hps)
        · simp [heldContrib, hc₁]
    | Deposited c₁ a => simp [heldContrib]
    | Withdrawed => simp [heldContrib]
    | Resolved => simp [heldContrib]
    | ChargedBack => simp [heldContrib]
  · refine ⟨[Transaction.Deposit 1 1 1, Transaction.Withdrawal 1 2 1, Transaction.Dispute 1 1],
      ⟨[(1, ⟨-1, 1, false⟩)],
        [(2, TransactionState.Withdrawed), (1, TransactionState.Disputed 1 1)]⟩,
      ?_, ?_, ?_⟩
    · intro t ht c x a h₀
      simp only [List.mem_cons, List.not_mem_nil, or_false] at ht
      rcases ht with rfl | rfl | rfl
      · cases h₀
        norm_num
      · cases h₀
      · cases h₀
    · norm_num [applyTxs, handle_transaction, AccountingEngine.deposit,
        AccountingEngine.withdraw, AccountingEngine.dispute, accountOf, entryOrDefault,
        alookup, setKey, AccountingEngine.default, Account.default]
    · norm_num [availOf, accountOf, alookup]

/-- C2 witness: the amended nonnegativity theorem applied to a single
nonnegative deposit. -/
theorem c2_held_nonneg_witness : 0 ≤ eDep.heldOf 1 :=
  c2_held_nonneg_amended.1 [Transaction.Deposit 1 1 1] eDep
    (by intro t ht c x a h₀
        simp only [List.mem_cons, List.not_mem_nil, or_false] at ht
        subst ht
        cases h₀
        norm_num)
    (by simp [applyTxs, handle_transaction, AccountingEngine.deposit, accountOf,
      entryOrDefault, alookup, setKey, AccountingEngine.default, Account.default, eDep])
    1

end TransactionsEngine
